import Mathlib

/-!
# svdutil.c: binary codec, stream registry and file-name resolution

A shallow embedding of the stream utilities of `svdutil.c` and the properties
of its natural-language specification.

Conventions of the embedding.

* `int` is a 32-bit two's-complement integer, modelled as an `Int` together
  with the explicit conversions `toU32` (to `uint32_t`) and `toI32` (back).
* An object in memory is the sequence of its bytes at increasing addresses
  (`Obj32`); the host byte order (`Endian`) fixes how a 32-bit value is laid
  out (`store32`) and read back (`load32`).
* `htonl`, `ntohl`, `fread`, `fwrite`, `stat`, `popen`, `fopen`, `pclose` and
  `fclose` belong to the C library; they are modelled after their standard
  contracts, the answers of the operating system being parameters (`OS`).
-/

namespace SvdUtil

/-! ## Part 1: the binary codec -/

/-- One byte of memory or of a stream. -/
abbrev Byte := Fin 256

/-- The byte holding the low eight bits of `n`. -/
def byte (n : Nat) : Byte := ⟨n % 256, Nat.mod_lt n (by decide)⟩

/-- Byte order of the host. -/
inductive Endian where
  | big
  | little
deriving DecidableEq, Repr

/-- A four-byte object in memory: `b0` lies at the lowest address. -/
structure Obj32 where
  b0 : Byte
  b1 : Byte
  b2 : Byte
  b3 : Byte
deriving DecidableEq, Repr

/-- The bytes of an object, lowest address first (what `fwrite` sends). -/
def Obj32.bytes (o : Obj32) : List Byte := [o.b0, o.b1, o.b2, o.b3]

/-- Conversion of an `int` to `uint32_t`: reduction modulo `2^32`. -/
def toU32 (x : Int) : Nat := (x % 4294967296).toNat

/-- Conversion of a `uint32_t` to `int`: the two's-complement reading. -/
def toI32 (u : Nat) : Int :=
  if u % 4294967296 < 2147483648 then ((u % 4294967296 : Nat) : Int)
  else ((u % 4294967296 : Nat) : Int) - 4294967296

/-- Object representation of the 32-bit value `u` on a host of byte order `h`. -/
def store32 (h : Endian) (u : Nat) : Obj32 :=
  match h with
  | .big => ⟨byte (u / 16777216), byte (u / 65536), byte (u / 256), byte u⟩
  | .little => ⟨byte u, byte (u / 256), byte (u / 65536), byte (u / 16777216)⟩

/-- The 32-bit value a host of byte order `h` reads from the object `o`. -/
def load32 (h : Endian) (o : Obj32) : Nat :=
  match h with
  | .big => o.b0.val * 16777216 + o.b1.val * 65536 + o.b2.val * 256 + o.b3.val
  | .little => o.b3.val * 16777216 + o.b2.val * 65536 + o.b1.val * 256 + o.b0.val

/-- Reversal of the four bytes of a 32-bit value. -/
def bswap32 (u : Nat) : Nat :=
  (u % 256) * 16777216 + (u / 256 % 256) * 65536 + (u / 65536 % 256) * 256
    + (u / 16777216 % 256)

/-- Library `htonl`: host to network (big-endian) order; the identity on a
big-endian host, the byte swap on a little-endian one. -/
def htonl (h : Endian) (u : Nat) : Nat :=
  match h with
  | .big => u % 4294967296
  | .little => bswap32 u

/-- Library `ntohl`: network to host order, the same transformation. -/
def ntohl (h : Endian) (u : Nat) : Nat :=
  match h with
  | .big => u % 4294967296
  | .little => bswap32 u

/-- A stream opened for reading: its whole content and the read position. -/
structure IStream where
  data : List Byte
  pos : Nat
deriving DecidableEq, Repr

/-- The bytes not yet consumed. -/
def IStream.remaining (f : IStream) : List Byte := f.data.drop f.pos

/-- A stream opened for writing: the bytes accepted so far and the number of
further bytes the sink still accepts (`room`); writing beyond it fails. -/
structure OStream where
  written : List Byte
  room : Nat
deriving DecidableEq, Repr

/-- Library `fread(&x, sizeof(int), 1, file)`: with four bytes remaining the
object is filled, the position moves by four and the call returns `1`
(`some`); otherwise the bytes that remain are consumed, the object is
indeterminate and the call returns `0` (`none`). -/
def fread (f : IStream) : Option Obj32 × IStream :=
  match f.remaining with
  | a :: b :: c :: d :: _ => (some ⟨a, b, c, d⟩, { f with pos := f.pos + 4 })
  | rest => (none, { f with pos := f.pos + rest.length })

/-- Library `fwrite(&y, sizeof(int), 1, file)`: returns `1` when all four
bytes were accepted, `0` when the sink took fewer. -/
def fwrite (o : Obj32) (f : OStream) : Nat × OStream :=
  if 4 ≤ f.room then (1, { written := f.written ++ o.bytes, room := f.room - 4 })
  else (0, { written := f.written ++ o.bytes.take f.room, room := 0 })

/-- C `FALSE`. -/
abbrev FALSE : Bool := false

/-- C `TRUE`. -/
abbrev TRUE : Bool := true

/-- Embedding of `svd_readBinInt(file, val)`: the returned flag, the content
of `*val` after the call (given its content `val` before) and the stream. -/
def svd_readBinInt (h : Endian) (file : IStream) (val : Int) : Bool × Int × IStream :=
  match fread file with
  | (some x, file1) => (FALSE, toI32 (ntohl h (toU32 (toI32 (load32 h x)))), file1)
  | (none, file1) => (TRUE, val, file1)

/-- An IEEE-754 single-precision float, identified with its 32-bit pattern. -/
structure Float32 where
  bits : Nat
deriving DecidableEq, Repr

/-- Object representation of a float on a host of byte order `h`. -/
def Float32.obj (h : Endian) (r : Float32) : Obj32 := store32 h r.bits

/-- The float whose object representation on host `h` is `o`. -/
def Float32.ofObj (h : Endian) (o : Obj32) : Float32 := ⟨load32 h o⟩

/-- Embedding of `svd_readBinFloat(file, val)`: the word read is put in host
order, then its bytes are read back through a `float *`. -/
def svd_readBinFloat (h : Endian) (file : IStream) (val : Float32) :
    Bool × Float32 × IStream :=
  match fread file with
  | (some x0, file1) =>
    let x : Int := toI32 (ntohl h (toU32 (toI32 (load32 h x0))))
    let y : Float32 := Float32.ofObj h (store32 h (toU32 x))
    (FALSE, y, file1)
  | (none, file1) => (TRUE, val, file1)

/-- Embedding of `svd_writeBinInt(file, x)`: the returned flag and the stream. -/
def svd_writeBinInt (h : Endian) (file : OStream) (x : Int) : Bool × OStream :=
  let y : Int := toI32 (htonl h (toU32 x))
  match fwrite (store32 h (toU32 y)) file with
  | (n, file1) => if n ≠ 1 then (TRUE, file1) else (FALSE, file1)

/-- Embedding of `svd_writeBinFloat(file, r)`: the bytes of `r` are read
through an `int *`, put in network order and written. -/
def svd_writeBinFloat (h : Endian) (file : OStream) (r : Float32) : Bool × OStream :=
  let y : Int := toI32 (htonl h (toU32 (toI32 (load32 h (r.obj h)))))
  match fwrite (store32 h (toU32 y)) file with
  | (n, file1) => if n ≠ 1 then (TRUE, file1) else (FALSE, file1)

/-- Which of the two read operations a caller invokes. -/
inductive ReadKind where
  | int
  | float
deriving DecidableEq, Repr

/-- A caller performing the reads `ks` one after the other on the same
stream, with `v` and `r` the current contents of its `int` and `float`
variables: the flags returned, in order, and the final contents. -/
def readMany (h : Endian) : List ReadKind → IStream → Int → Float32 →
    List Bool × Int × Float32
  | [], _, v, r => ([], v, r)
  | .int :: ks, f, v, r =>
    match svd_readBinInt h f v with
    | (flag, v1, f1) =>
      match readMany h ks f1 v1 r with
      | (flags, v2, r2) => (flag :: flags, v2, r2)
  | .float :: ks, f, v, r =>
    match svd_readBinFloat h f r with
    | (flag, r1, f1) =>
      match readMany h ks f1 v r1 with
      | (flags, v2, r2) => (flag :: flags, v2, r2)

/-! ## Part 2: the stream registry and the resolution of file names -/

/-- A C string: the characters before the terminating NUL. -/
abbrev CStr := List Char

/-- A `FILE *` value: the null pointer, one of the two standard streams, or
a stream the operating system handed out (identified by a number). -/
inductive FILE where
  | NULL
  | stdin
  | stdout
  | stream (id : Nat)
deriving DecidableEq, Repr

/-- The calls the code makes to the outside world, in the order made. -/
inductive Event where
  | stat (path : CStr)
  | fflush_stdout
  | popen (command : CStr) (mode : CStr) (result : FILE)
  | fopen (path : CStr) (mode : CStr) (result : FILE)
  | pclose (file : FILE)
  | fclose (file : FILE)
  | svd_error (msg : CStr)
deriving DecidableEq, Repr

/-- The answers of the operating system during one call: whether
`stat(path, &statbuf)` returns `0`, and the stream `popen` / `fopen` hand out
(`none` for a null result). -/
structure OS where
  stat : CStr → Bool
  popen : CStr → CStr → Option Nat
  fopen : CStr → CStr → Option Nat

/-- The pointer a library open call returns. -/
def FILE.ofAnswer : Option Nat → FILE
  | none => FILE.NULL
  | some id => FILE.stream id

def BUNZIP2 : CStr := "bzip2 -d".toList
def BZIP2 : CStr := "bzip2 -1".toList
def UNZIP : CStr := "gzip -d".toList
def ZIP : CStr := "gzip -1".toList
def COMPRESS : CStr := "compress".toList

def MAX_FILENAME : Nat := 512
def MAX_PIPES : Nat := 64

/-- The static variables `Pipe` and `numPipes`, and the log of outside calls.
`Pipe i` is the cell `Pipe[i]` of the array `FILE *Pipe[MAX_PIPES]`; only the
cells `i < MAX_PIPES` exist. -/
structure State where
  Pipe : Nat → FILE
  numPipes : Nat
  log : List Event

/-- The state at program start: `Pipe` zero-initialised, `numPipes = 0`. -/
def State.init : State := ⟨fun _ => FILE.NULL, 0, []⟩

/-- Appending one outside call to the log. -/
def State.emit (s : State) (e : Event) : State := { s with log := s.log ++ [e] }

/-- Embedding of `svd_error(fmt)`: the message goes to standard error. -/
def svd_error (msg : CStr) (s : State) : State := s.emit (Event.svd_error msg)

/-- Embedding of `registerPipe(p)`. The store `Pipe[numPipes++] = p` follows
the test unconditionally; a store outside the array is undefined behaviour,
for which the result is `none`. -/
def registerPipe (p : FILE) (s : State) : Option State :=
  let s1 := if s.numPipes ≥ MAX_PIPES then svd_error "Too many pipes open".toList s else s
  if s1.numPipes < MAX_PIPES then
    some { s1 with Pipe := Function.update s1.Pipe s1.numPipes p, numPipes := s1.numPipes + 1 }
  else none

/-- The loop `for (i = 0; i < numPipes && Pipe[i] != p; i++);` of `isPipe`,
started at `i` with `fuel` iterations allowed; the value of `i` at exit. -/
def isPipe_loop (s : State) (p : FILE) : Nat → Nat → Nat
  | 0, i => i
  | fuel + 1, i => if i < s.numPipes ∧ s.Pipe i ≠ p then isPipe_loop s p fuel (i + 1) else i

/-- Embedding of `isPipe(p)`; the loop runs at most `numPipes` times. -/
def isPipe (p : FILE) (s : State) : Bool × State :=
  let i := isPipe_loop s p s.numPipes 0
  if i = s.numPipes then (FALSE, s)
  else (TRUE, { s with Pipe := Function.update s.Pipe i (s.Pipe (s.numPipes - 1)),
                       numPipes := s.numPipes - 1 })

/-- Embedding of `openPipe(pipeName, mode)`. -/
def openPipe (os : OS) (pipeName mode : CStr) (s : State) : Option (FILE × State) :=
  let s1 := s.emit Event.fflush_stdout
  let pipe := FILE.ofAnswer (os.popen pipeName mode)
  let s2 := s1.emit (Event.popen pipeName mode pipe)
  if pipe ≠ FILE.NULL then (registerPipe pipe s2).map (fun s3 => (pipe, s3))
  else some (pipe, s2)

/-- A `sprintf` into a `char [MAX_FILENAME]` buffer: the formatted text when
it fits together with its terminating NUL; otherwise the store runs past the
buffer, which is undefined behaviour (`none`). -/
def sprintf (text : CStr) : Option CStr :=
  if text.length < MAX_FILENAME then some text else none

/-- Embedding of `readZippedFile(command, fileName)`. -/
def readZippedFile (os : OS) (command fileName : CStr) (s : State) : Option (FILE × State) :=
  match sprintf (command ++ " < ".toList ++ fileName ++ " 2>/dev/null".toList) with
  | none => none
  | some buf => openPipe os buf "r".toList s

/-- Embedding of `stringEndsIn(s, t)`. -/
def stringEndsIn (s t : CStr) : Bool :=
  if s.length < t.length then FALSE
  else if s.drop (s.length - t.length) = t then TRUE else FALSE

/-- The call `stat(path, &statbuf)`: `true` when it returns `0`. -/
def stat (os : OS) (path : CStr) (s : State) : Bool × State :=
  (os.stat path, s.emit (Event.stat path))

/-- The call `fopen(path, mode)`. -/
def fopen (os : OS) (path mode : CStr) (s : State) : FILE × State :=
  (FILE.ofAnswer (os.fopen path mode),
    s.emit (Event.fopen path mode (FILE.ofAnswer (os.fopen path mode))))

/-- The tail of `svd_readFile`: one suffix after the other is added to the
name (`sprintf(fileBuf, "%s.gz", fileName)` and so on) and probed. -/
def svd_readFile_probe (os : OS) (fileName : CStr) (s : State) : Option (FILE × State) :=
  match sprintf (fileName ++ ".gz".toList) with
  | none => none
  | some fileBuf =>
    match stat os fileBuf s with
    | (true, s1) => readZippedFile os UNZIP fileBuf s1
    | (false, s1) =>
      match sprintf (fileName ++ ".Z".toList) with
      | none => none
      | some fileBuf =>
        match stat os fileBuf s1 with
        | (true, s2) => readZippedFile os UNZIP fileBuf s2
        | (false, s2) =>
          match sprintf (fileName ++ ".bz2".toList) with
          | none => none
          | some fileBuf =>
            match stat os fileBuf s2 with
            | (true, s3) => readZippedFile os BUNZIP2 fileBuf s3
            | (false, s3) =>
              match sprintf (fileName ++ ".bz".toList) with
              | none => none
              | some fileBuf =>
                match stat os fileBuf s3 with
                | (true, s4) => readZippedFile os BUNZIP2 fileBuf s4
                | (false, s4) => some (FILE.NULL, s4)

/-- Embedding of `svd_readFile(fileName)`: the pointer returned and the new
state, or `none` when a buffer is overrun. -/
def svd_readFile (os : OS) (fileName : CStr) (s : State) : Option (FILE × State) :=
  if fileName = "-".toList then some (FILE.stdin, s)
  else if fileName.head? = some '|' then openPipe os fileName.tail "r".toList s
  else if stringEndsIn fileName ".gz".toList || stringEndsIn fileName ".Z".toList then
    match stat os fileName s with
    | (true, s1) => readZippedFile os UNZIP fileName s1
    | (false, s1) => some (FILE.NULL, s1)
  else if stringEndsIn fileName ".bz".toList || stringEndsIn fileName ".bz2".toList then
    match stat os fileName s with
    | (true, s1) => readZippedFile os BUNZIP2 fileName s1
    | (false, s1) => some (FILE.NULL, s1)
  else
    match stat os fileName s with
    | (true, s1) => some (fopen os fileName "r".toList s1)
    | (false, s1) => svd_readFile_probe os fileName s1

/-- The text of `sprintf(buf, "%s %s \"%s\"", command, op, fileName)`. -/
def writeCommand (command op fileName : CStr) : CStr :=
  command ++ [' '] ++ op ++ [' ', '"'] ++ fileName ++ ['"']

/-- Embedding of `writeZippedFile(fileName, append)`. -/
def writeZippedFile (os : OS) (fileName : CStr) (append : Int) (s : State) :
    Option (FILE × State) :=
  let op : CStr := if append ≠ 0 then ">>".toList else ">".toList
  let text : CStr :=
    if stringEndsIn fileName ".bz2".toList || stringEndsIn fileName ".bz".toList then
      writeCommand BZIP2 op fileName
    else if stringEndsIn fileName ".Z".toList then writeCommand COMPRESS op fileName
    else writeCommand ZIP op fileName
  match sprintf text with
  | none => none
  | some buf => openPipe os buf "w".toList s

/-- Embedding of `svd_writeFile(fileName, append)`. -/
def svd_writeFile (os : OS) (fileName : CStr) (append : Int) (s : State) :
    Option (FILE × State) :=
  if fileName = "-".toList then some (FILE.stdout, s)
  else if fileName.head? = some '|' then openPipe os fileName.tail "w".toList s
  else if stringEndsIn fileName ".gz".toList || stringEndsIn fileName ".Z".toList ||
      stringEndsIn fileName ".bz".toList || stringEndsIn fileName ".bz2".toList then
    writeZippedFile os fileName append s
  else if append ≠ 0 then some (fopen os fileName "a".toList s)
  else some (fopen os fileName "w".toList s)

/-- Embedding of `svd_closeFile(file)`. -/
def svd_closeFile (file : FILE) (s : State) : State :=
  if file = FILE.stdin ∨ file = FILE.stdout then s
  else
    match isPipe file s with
    | (true, s1) => s1.emit (Event.pclose file)
    | (false, s1) => s1.emit (Event.fclose file)

/-- A file name of 600 characters. -/
def longPath : CStr := List.replicate 600 'a'

/-- An operating system in which exactly the file `P` exists and every
`popen` and `fopen` succeeds. -/
def osOnly (P : CStr) : OS :=
  ⟨fun p => decide (p = P), fun _ _ => some 1, fun _ _ => some 2⟩

/-- The registry at capacity: `Pipe[i]` holds stream `i` for each of the 64
cells and `numPipes = 64`. -/
def fullRegistry : State := ⟨fun i => FILE.stream i, 64, []⟩

/-- The entries of the registry: `Pipe[0]`, ..., `Pipe[numPipes-1]`. -/
def registered (s : State) : List FILE := (List.range s.numPipes).map s.Pipe

/-- Bookkeeping of the handles that are open, read off one outside call: a
successful `popen` adds its result to the spawned handles (first component),
a successful `fopen` adds its result to the directly opened ones (second
component), and a `pclose` or `fclose` ends the life of its argument. -/
def liveStep (l : List FILE × List FILE) : Event → List FILE × List FILE
  | .popen _ _ f => if f = FILE.NULL then l else (f :: l.1, l.2)
  | .fopen _ _ f => if f = FILE.NULL then l else (l.1, f :: l.2)
  | .pclose f => (l.1.filter (fun g => g ≠ f), l.2.filter (fun g => g ≠ f))
  | .fclose f => (l.1.filter (fun g => g ≠ f), l.2.filter (fun g => g ≠ f))
  | .stat _ => l
  | .fflush_stdout => l
  | .svd_error _ => l

/-- The open handles after the calls of a log, oldest call first. -/
def live (log : List Event) : List FILE × List FILE := log.foldl liveStep ([], [])

/-- The handles produced by a spawn and not yet closed. -/
def spawnedOpen (s : State) : List FILE := (live s.log).1

/-- The handles produced by a direct `fopen` and not yet closed. -/
def plainOpen (s : State) : List FILE := (live s.log).2

/-- The states reachable from the empty registry by calls of `svd_readFile`,
`svd_writeFile` and `svd_closeFile`, in which an open never returns a handle
that is still open. A call whose behaviour is undefined (a buffer overrun,
a store beyond `Pipe[MAX_PIPES-1]`) has no successor state. -/
inductive Reachable : State → Prop where
  | init : Reachable State.init
  | read (s : State) (os : OS) (fileName : CStr) (f : FILE) (s1 : State) :
      Reachable s → svd_readFile os fileName s = some (f, s1) →
      f ∉ spawnedOpen s → f ∉ plainOpen s → Reachable s1
  | write (s : State) (os : OS) (fileName : CStr) (append : Int) (f : FILE) (s1 : State) :
      Reachable s → svd_writeFile os fileName append s = some (f, s1) →
      f ∉ spawnedOpen s → f ∉ plainOpen s → Reachable s1
  | close (s : State) (file : FILE) :
      Reachable s → Reachable (svd_closeFile file s)

/-- Two states with the same registry and the same open handles. -/
def Same (s s1 : State) : Prop :=
  s1.Pipe = s.Pipe ∧ s1.numPipes = s.numPipes ∧ live s1.log = live s.log

/-- What a call that opens a stream does to the registry and to the open
handles: nothing (a standard stream or `NULL` is returned), a spawn whose
handle is stored at `Pipe[numPipes]`, or a direct open. -/
inductive OpenEffect (s : State) (f : FILE) (s1 : State) : Prop where
  | nothing : Same s s1 → (f = FILE.NULL ∨ f = FILE.stdin ∨ f = FILE.stdout) →
      OpenEffect s f s1
  | spawn (id : Nat) : f = FILE.stream id → s.numPipes < MAX_PIPES →
      s1.Pipe = Function.update s.Pipe s.numPipes f → s1.numPipes = s.numPipes + 1 →
      live s1.log = (f :: (live s.log).1, (live s.log).2) → OpenEffect s f s1
  | direct (id : Nat) : f = FILE.stream id → s1.Pipe = s.Pipe → s1.numPipes = s.numPipes →
      live s1.log = ((live s.log).1, f :: (live s.log).2) → OpenEffect s f s1

/-- The registry discipline: the entries `Pipe[0..numPipes-1]` are exactly
the spawned handles still open, without repetition, and no directly opened
handle is among them. -/
structure RegistryInv (s : State) : Prop where
  cap : s.numPipes ≤ MAX_PIPES
  mem : ∀ f, (∃ i, i < s.numPipes ∧ s.Pipe i = f) ↔ f ∈ spawnedOpen s
  inj : ∀ i j, i < s.numPipes → j < s.numPipes → s.Pipe i = s.Pipe j → i = j
  nodup : (spawnedOpen s).Nodup
  disj : ∀ f, f ∈ plainOpen s → f ∉ spawnedOpen s
  strm : ∀ f, f ∈ spawnedOpen s ∨ f ∈ plainOpen s → ∃ id, f = FILE.stream id

/-- The state after `svd_readFile("|cat")` has spawned stream 1 from the
empty registry. -/
def afterSpawn : State :=
  ⟨Function.update State.init.Pipe 0 (FILE.stream 1), 1,
    [Event.fflush_stdout, Event.popen "cat".toList "r".toList (FILE.stream 1)]⟩

/-- The state after a further `svd_readFile("f")` has opened the existing
file `f` directly as stream 2. -/
def afterSpawnAndOpen : State :=
  ⟨Function.update State.init.Pipe 0 (FILE.stream 1), 1,
    [Event.fflush_stdout, Event.popen "cat".toList "r".toList (FILE.stream 1),
      Event.stat "f".toList, Event.fopen "f".toList "r".toList (FILE.stream 2)]⟩

/-- An operating system in which no file exists, every `popen` hands out
stream 64 and every `fopen` fails. -/
def osSpawn64 : OS := ⟨fun _ => false, fun _ _ => some 64, fun _ _ => none⟩

/-- The state in which the statement `Pipe[numPipes++] = p` of `registerPipe`
leaves a full registry when the store of stream 64 lands in the memory cell
that follows the array: `numPipes = 65` and that cell holds the handle. -/
def overfullRegistry : State :=
  ⟨Function.update fullRegistry.Pipe 64 (FILE.stream 64), 65,
    [Event.fflush_stdout, Event.popen "cat".toList "r".toList (FILE.stream 64),
      Event.svd_error "Too many pipes open".toList]⟩

/-- A file name of 604 characters that ends in `.bz2`. -/
def longBz2Path : CStr := longPath ++ ".bz2".toList

/-- A stretch of the log that consists of `stat` calls only. -/
def AllStat (evs : List Event) : Prop := ∀ e ∈ evs, ∃ p, e = Event.stat p

/-- A stretch of the log in which every `popen` is the last call and comes
right after a successful `stat` of the file its command reads and the
`fflush(stdout)` of `openPipe`, only `stat` calls going before. -/
def SpawnGuarded (os : OS) (evs : List Event) : Prop :=
  ∀ cmd mode r, Event.popen cmd mode r ∈ evs →
    ∃ pre file dec,
      evs = pre ++ [Event.stat file, Event.fflush_stdout, Event.popen cmd mode r] ∧
      AllStat pre ∧ os.stat file = true ∧
      cmd = dec ++ " < ".toList ++ file ++ " 2>/dev/null".toList

/-- What one call of `svd_readFile` on a name without a leading bar does
between the states `s` and `s1`, returning `f`: it appends a stretch of
guarded calls to the log and, when it returns `NULL`, no `popen` in that
stretch succeeded and the registry is as before. -/
def ReadOutcome (os : OS) (s : State) (f : FILE) (s1 : State) : Prop :=
  ∃ evs, s1.log = s.log ++ evs ∧ SpawnGuarded os evs ∧
    (f = FILE.NULL → s1.Pipe = s.Pipe ∧ s1.numPipes = s.numPipes ∧
      ∀ cmd mode r, Event.popen cmd mode r ∈ evs → r = FILE.NULL)

/-! ## Part 3: the numeric helpers

`double` values are taken in an ordered field `α` (no NaN, no signed zero,
exact arithmetic). -/

/-- Embedding of `svd_fsign(a, b)` of `svdutil.h`. -/
def svd_fsign {α : Type} [LinearOrderedField α] (a b : α) : α :=
  if (a ≥ 0 ∧ b ≥ 0) ∨ (a < 0 ∧ b < 0) then a else -a

/-- The loop `for (i=0; i < n; i++) *dy++ = da * (*dx++);` of `svd_datx`
with `k` iterations left; `mem` is the memory of doubles, `dx` and `dy` are
the current values of the two pointers, counted in elements. -/
def svd_datx_unit {α : Type} [Mul α] (da : α) : Nat → Int → Int → (Int → α) → (Int → α)
  | 0, _, _, mem => mem
  | k + 1, dx, dy, mem =>
    svd_datx_unit da k (dx + 1) (dy + 1) (Function.update mem dy (da * mem dx))

/-- The loop of the general branch of `svd_datx`:
`*dy = da * (*dx); dx += incx; dy += incy;` with `k` iterations left. -/
def svd_datx_strided {α : Type} [Mul α] (da : α) (incx incy : Int) :
    Nat → Int → Int → (Int → α) → (Int → α)
  | 0, _, _, mem => mem
  | k + 1, dx, dy, mem =>
    svd_datx_strided da incx incy k (dx + incx) (dy + incy)
      (Function.update mem dy (da * mem dx))

/-- Embedding of `svd_datx(n, da, dx, incx, dy, incy)`: the memory after the
call. -/
def svd_datx {α : Type} [Field α] [DecidableEq α] (n : Int) (da : α) (dx : Int) (incx : Int)
    (dy : Int) (incy : Int) (mem : Int → α) : Int → α :=
  if n ≤ 0 ∨ incx = 0 ∨ incy = 0 ∨ da = 0 then mem
  else if incx = 1 ∧ incy = 1 then svd_datx_unit da n.toNat dx dy mem
  else
    let dx1 := if incx < 0 then dx + (-n + 1) * incx else dx
    let dy1 := if incy < 0 then dy + (-n + 1) * incy else dy
    svd_datx_strided da incx incy n.toNat dx1 dy1 mem

/-- A memory in which every cell holds `7`, except cell `0`, which holds `5`. -/
def memFiveSeven : Int → ℚ := fun a => if a = 0 then 5 else 7

/-- The three assignments `temp = a[j]; a[j] = a[index]; a[index] = temp;`
on an array given by its cells. -/
def swapCells {γ : Type} (a : Nat → γ) (j index : Nat) : Nat → γ :=
  Function.update (Function.update a j (a index)) index (a j)

/-- The loop `while (j >= 0 && array1[j] > array1[index]) { ... }` of
`svd_dsort2`, entered with the given values of `j` and `index`; `gt` is the
comparison `>` of the array elements. Each round lowers `j` by `igap > 0`,
which is why the loop ends. -/
def svd_dsort2_while {α β : Type} (gt : α → α → Bool) (igap : Nat) (hgap : 0 < igap)
    (j index : Int) (array1 : Nat → α) (array2 : Nat → β) : (Nat → α) × (Nat → β) :=
  if j ≥ 0 ∧ gt (array1 j.toNat) (array1 index.toNat) = true then
    svd_dsort2_while gt igap hgap (j - igap) (j - igap + igap)
      (swapCells array1 j.toNat index.toNat) (swapCells array2 j.toNat index.toNat)
  else (array1, array2)
termination_by (j + 1).toNat
decreasing_by omega

/-- The loop `for (i = igap; i < n; i++) { ... }` of `svd_dsort2` at the
value `i` of its counter, with `k = n - i` rounds left. -/
def svd_dsort2_for {α β : Type} (gt : α → α → Bool) (igap : Nat) (hgap : 0 < igap) :
    Nat → Nat → (Nat → α) → (Nat → β) → (Nat → α) × (Nat → β)
  | 0, _, array1, array2 => (array1, array2)
  | k + 1, i, array1, array2 =>
    match svd_dsort2_while gt igap hgap ((i : Int) - igap) i array1 array2 with
    | (b1, b2) => svd_dsort2_for gt igap hgap k (i + 1) b1 b2

/-- Embedding of `svd_dsort2(igap, n, array1, array2)` for `igap >= 0`: the
two arrays after the call. The recursion on `igap / 2` is well founded. -/
def svd_dsort2 {α β : Type} (gt : α → α → Bool) (igap n : Nat) (array1 : Nat → α)
    (array2 : Nat → β) : (Nat → α) × (Nat → β) :=
  if h : igap = 0 then (array1, array2)
  else
    match svd_dsort2_for gt igap (Nat.pos_of_ne_zero h) (n - igap) igap array1 array2 with
    | (b1, b2) => svd_dsort2 gt (igap / 2) n b1 b2
termination_by igap
decreasing_by exact Nat.div_lt_self (Nat.pos_of_ne_zero h) (by decide)

/-- The arrays `b1`, `b2` arise from `a1`, `a2` by one and the same
permutation of the cells below `n`, the other cells staying as they are. -/
def Shuffled {α β : Type} (n : Nat) (a1 : Nat → α) (a2 : Nat → β) (b1 : Nat → α)
    (b2 : Nat → β) : Prop :=
  ∃ σ : Equiv.Perm Nat, (∀ k, n ≤ k → σ k = k) ∧ b1 = a1 ∘ σ ∧ b2 = a2 ∘ σ

/-- A sample array of keys: `5, 3, 9, 1, 4, 8, 2`, then zeros. -/
def sampleKeys : Nat → Int := fun i => [5, 3, 9, 1, 4, 8, 2].getD i 0

/-- A sample array of values: cell `i` holds `i`. -/
def sampleValues : Nat → Nat := fun i => i

/-- A result of arithmetic in `long`, a 64-bit signed integer: the value when
it is representable; signed overflow is undefined behaviour (`none`). -/
def long64 (x : Int) : Option Int :=
  if -9223372036854775808 ≤ x ∧ x < 9223372036854775808 then some x else none

/-- The static `m2` of `svd_random2` after the first entry:
`1 << (8 * (int)sizeof(int) - 2)` with a 32-bit `int`. -/
def random2_m2 : Int := 1073741824

/-- The static multiplier `ia = 8 * (long)(halfm * atan(1.0) / 8.0) + 5`, the
expression being evaluated in `double` for `halfm = 2^30`. -/
def random2_ia : Int := 843314861

/-- The static increment `ic = 2 * (long)(halfm * (0.5 - sqrt(3.0)/6.0)) + 1`,
the expression being evaluated in `double` for `halfm = 2^30`. -/
def random2_ic : Int := 453816693

/-- The static `mic = (m2 - ic) + m2`. -/
def random2_mic : Int := (random2_m2 - random2_ic) + random2_m2

/-- Embedding of `svd_random2(iy)` for a 64-bit `long`: the content of `*iy`
after the call and the value returned, `(double)(*iy) * s` with
`s = 0.5 / halfm = 2^-31`, taken as a rational number (the conversion and the
product are exact for `|*iy| < 2^53`). -/
def svd_random2 (iy : Int) : Option (Int × ℚ) :=
  match long64 (iy * random2_ia) with
  | none => none
  | some iy1 =>
    match (if iy1 > random2_mic then
        (long64 (iy1 - random2_m2)).bind (fun t => long64 (t - random2_m2))
      else some iy1) with
    | none => none
    | some iy2 =>
      match long64 (iy2 + random2_ic) with
      | none => none
      | some iy3 =>
        match (if Int.tdiv iy3 2 > random2_m2 then
            (long64 (iy3 - random2_m2)).bind (fun t => long64 (t - random2_m2))
          else some iy3) with
        | none => none
        | some iy4 =>
          match (if iy4 < 0 then
              (long64 (iy4 + random2_m2)).bind (fun t => long64 (t + random2_m2))
            else some iy4) with
          | none => none
          | some iy5 => some (iy5, (iy5 : ℚ) * (1 / 2147483648))

/-! ## Theorems -/

theorem byte_val (n : Nat) : (byte n).val = n % 256 := rfl

theorem toU32_lt (x : Int) : toU32 x < 4294967296 := by
  unfold toU32; omega

theorem toU32_toI32 (u : Nat) : toU32 (toI32 u) = u % 4294967296 := by
  unfold toU32 toI32; split <;> omega

theorem toI32_toU32 (x : Int) (hlo : -2147483648 ≤ x) (hhi : x < 2147483648) :
    toI32 (toU32 x) = x := by
  unfold toU32 toI32; split <;> omega

theorem load32_lt (h : Endian) (o : Obj32) : load32 h o < 4294967296 := by
  have h0 := o.b0.isLt; have h1 := o.b1.isLt; have h2 := o.b2.isLt; have h3 := o.b3.isLt
  cases h <;> simp only [load32] <;> omega

theorem load32_store32 (h : Endian) (u : Nat) : load32 h (store32 h u) = u % 4294967296 := by
  cases h <;> simp only [load32, store32, byte_val] <;> omega

theorem store32_load32 (h : Endian) (o : Obj32) : store32 h (load32 h o) = o := by
  have h0 := o.b0.isLt; have h1 := o.b1.isLt; have h2 := o.b2.isLt; have h3 := o.b3.isLt
  cases o
  cases h <;> simp only [load32, store32, byte, Obj32.mk.injEq, Fin.ext_iff] <;>
    simp only at h0 h1 h2 h3 ⊢ <;> omega

theorem store32_mod (h : Endian) (u : Nat) : store32 h (u % 4294967296) = store32 h u := by
  cases h <;> simp only [store32, byte, Obj32.mk.injEq, Fin.ext_iff] <;> omega

theorem store32_htonl (h : Endian) (u : Nat) : store32 h (htonl h u) = store32 .big u := by
  cases h
  · simp only [store32, htonl, byte, Obj32.mk.injEq, Fin.ext_iff]; omega
  · have ha : u % 256 < 256 := Nat.mod_lt _ (by decide)
    have hb : u / 256 % 256 < 256 := Nat.mod_lt _ (by decide)
    have hc : u / 65536 % 256 < 256 := Nat.mod_lt _ (by decide)
    have hd : u / 16777216 % 256 < 256 := Nat.mod_lt _ (by decide)
    simp only [store32, htonl, bswap32, byte, Obj32.mk.injEq, Fin.ext_iff]
    generalize u % 256 = a at ha ⊢
    generalize u / 256 % 256 = b at hb ⊢
    generalize u / 65536 % 256 = c at hc ⊢
    generalize u / 16777216 % 256 = d at hd ⊢
    omega

theorem ntohl_load32 (h : Endian) (o : Obj32) : ntohl h (load32 h o) = load32 .big o := by
  have h0 := o.b0.isLt; have h1 := o.b1.isLt; have h2 := o.b2.isLt; have h3 := o.b3.isLt
  cases h <;> simp only [load32, ntohl, bswap32] <;> omega

theorem htonl_lt (h : Endian) (u : Nat) : htonl h u < 4294967296 := by
  cases h <;> simp only [htonl, bswap32] <;> omega

theorem ntohl_lt (h : Endian) (u : Nat) : ntohl h u < 4294967296 := by
  cases h <;> simp only [ntohl, bswap32] <;> omega

theorem shift_mask (u k : Nat) : (u >>> k) &&& 255 = u / 2 ^ k % 256 := by
  rw [Nat.shiftRight_eq_div_pow]
  exact Nat.and_pow_two_sub_one_eq_mod (u / 2 ^ k) 8

theorem mask_low (u : Nat) : u &&& 255 = u % 256 :=
  Nat.and_pow_two_sub_one_eq_mod u 8

theorem writeBinInt_eq (h : Endian) (file : OStream) (x : Int) :
    svd_writeBinInt h file x =
      if 4 ≤ file.room then
        (FALSE, { written := file.written ++ (store32 .big (toU32 x)).bytes,
                  room := file.room - 4 })
      else
        (TRUE, { written := file.written ++ (store32 .big (toU32 x)).bytes.take file.room,
                 room := 0 }) := by
  have hlt := htonl_lt h (toU32 x)
  simp only [svd_writeBinInt, fwrite, toU32_toI32, Nat.mod_eq_of_lt hlt, store32_htonl]
  split <;> simp

theorem readBinInt_eq (h : Endian) (data : List Byte) (pos : Nat) (v0 : Int)
    (a b c d : Byte) (tl : List Byte)
    (hrem : (IStream.mk data pos).remaining = a :: b :: c :: d :: tl) :
    svd_readBinInt h ⟨data, pos⟩ v0 = (FALSE, toI32 (load32 .big ⟨a, b, c, d⟩), ⟨data, pos + 4⟩) := by
  have hl := load32_lt h ⟨a, b, c, d⟩
  simp only [svd_readBinInt, fread, hrem, toU32_toI32, Nat.mod_eq_of_lt hl, ntohl_load32]

theorem readBinFloat_eq (h : Endian) (data : List Byte) (pos : Nat) (r0 : Float32)
    (a b c d : Byte) (tl : List Byte)
    (hrem : (IStream.mk data pos).remaining = a :: b :: c :: d :: tl) :
    svd_readBinFloat h ⟨data, pos⟩ r0 =
      (FALSE, ⟨load32 .big ⟨a, b, c, d⟩⟩, ⟨data, pos + 4⟩) := by
  have hl := load32_lt h ⟨a, b, c, d⟩
  have hb := load32_lt .big ⟨a, b, c, d⟩
  simp only [svd_readBinFloat, fread, hrem, toU32_toI32, Nat.mod_eq_of_lt hl, ntohl_load32,
    Float32.ofObj, load32_store32, Nat.mod_eq_of_lt hb]

theorem writeBinFloat_eq (h : Endian) (file : OStream) (r : Float32) :
    svd_writeBinFloat h file r =
      if 4 ≤ file.room then
        (FALSE, { written := file.written ++ (store32 .big r.bits).bytes,
                  room := file.room - 4 })
      else
        (TRUE, { written := file.written ++ (store32 .big r.bits).bytes.take file.room,
                 room := 0 }) := by
  have hlt := htonl_lt h (r.bits % 4294967296)
  simp only [svd_writeBinFloat, fwrite, Float32.obj, toU32_toI32, load32_store32,
    Nat.mod_mod, Nat.mod_eq_of_lt hlt, store32_htonl, store32_mod]
  split <;> simp

theorem read_short (f : IStream) (hk : f.remaining.length < 4) :
    fread f = (none, { f with pos := f.pos + f.remaining.length }) := by
  unfold fread
  split
  · rename_i heq; rw [heq] at hk; simp only [List.length_cons] at hk; omega
  · rfl

theorem remaining_after_short (f : IStream) :
    (IStream.mk f.data (f.pos + f.remaining.length)).remaining = [] := by
  simp only [IStream.remaining, List.length_drop, List.drop_eq_nil_iff]
  omega

theorem readMany_exhausted (h : Endian) (ks : List ReadKind) (f : IStream)
    (hf : f.remaining = []) (v : Int) (r : Float32) :
    readMany h ks f v r = (List.replicate ks.length TRUE, v, r) := by
  induction ks generalizing f with
  | nil => rfl
  | cons k ks ih =>
    have hfr : fread f = (none, f) := by
      rw [read_short f (by simp [hf])]; simp [hf]
    cases k <;>
      simp only [readMany, svd_readBinInt, svd_readBinFloat, hfr, ih f hf, List.length_cons,
        List.replicate_succ]

theorem bigEndian_bytes_val (u : Nat) :
    (store32 .big u).bytes.map Fin.val =
      [(u >>> 24) &&& 255, (u >>> 16) &&& 255, (u >>> 8) &&& 255, u &&& 255] := by
  simp only [store32, Obj32.bytes, List.map_cons, List.map_nil, byte_val]
  rw [shift_mask, shift_mask, shift_mask, mask_low]
  norm_num

/-- C1: on a host of either byte order, writing a 32-bit integer `x` with
`svd_writeBinInt` to an empty stream that accepts four bytes returns `FALSE`
and leaves four bytes, and `svd_readBinInt` on those bytes returns `FALSE`
and stores exactly `x` in `*val`. -/
theorem writeBinInt_readBinInt_roundtrip (h : Endian) (x : Int)
    (hlo : -2147483648 ≤ x) (hhi : x < 2147483648) (room : Nat) (hroom : 4 ≤ room)
    (v0 : Int) :
    (svd_writeBinInt h ⟨[], room⟩ x).1 = FALSE ∧
    (svd_writeBinInt h ⟨[], room⟩ x).2.written.length = 4 ∧
    svd_readBinInt h ⟨(svd_writeBinInt h ⟨[], room⟩ x).2.written, 0⟩ v0 =
      (FALSE, x, ⟨(svd_writeBinInt h ⟨[], room⟩ x).2.written, 4⟩) := by
  rw [writeBinInt_eq, if_pos hroom]
  refine ⟨rfl, rfl, ?_⟩
  simp only [List.nil_append, Obj32.bytes]
  rw [readBinInt_eq h _ 0 v0 _ _ _ _ [] rfl]
  show (FALSE, toI32 (load32 .big (store32 .big (toU32 x))), _) = _
  rw [load32_store32, Nat.mod_eq_of_lt (toU32_lt x), toI32_toU32 x hlo hhi]

/-- Witness for C1: the integer `-2` on a little-endian host. -/
theorem writeBinInt_readBinInt_roundtrip_witness :
    (-2147483648 ≤ (-2 : Int) ∧ (-2 : Int) < 2147483648 ∧ 4 ≤ 4) ∧
    (svd_writeBinInt .little ⟨[], 4⟩ (-2)).1 = FALSE ∧
    (svd_writeBinInt .little ⟨[], 4⟩ (-2)).2.written.length = 4 ∧
    svd_readBinInt .little ⟨(svd_writeBinInt .little ⟨[], 4⟩ (-2)).2.written, 0⟩ 7 =
      (FALSE, -2, ⟨(svd_writeBinInt .little ⟨[], 4⟩ (-2)).2.written, 4⟩) :=
  ⟨by decide, writeBinInt_readBinInt_roundtrip .little (-2) (by decide) (by decide) 4
    (by decide) 7⟩

/-- C2: on a host of either byte order, `svd_writeBinInt(stream, x)` on a
stream that accepts four more bytes appends exactly the bytes
`(u >> 24) & 255, (u >> 16) & 255, (u >> 8) & 255, u & 255` of the
two's-complement pattern `u` of `x`, most significant first, and returns
`FALSE`; on a stream that accepts fewer than four bytes it returns `TRUE`. -/
theorem writeBinInt_bigEndian (h : Endian) (w : List Byte) (room : Nat) (x : Int) :
    svd_writeBinInt h ⟨w, room⟩ x =
        (if 4 ≤ room then
          (FALSE, ⟨w ++ (store32 .big (toU32 x)).bytes, room - 4⟩)
        else
          (TRUE, ⟨w ++ (store32 .big (toU32 x)).bytes.take room, 0⟩)) ∧
    (store32 .big (toU32 x)).bytes.map Fin.val =
      [(toU32 x >>> 24) &&& 255, (toU32 x >>> 16) &&& 255, (toU32 x >>> 8) &&& 255,
        toU32 x &&& 255] :=
  ⟨writeBinInt_eq h ⟨w, room⟩ x, bigEndian_bytes_val (toU32 x)⟩

/-- C3: on a host of either byte order, when the remaining content of the
stream starts with the bytes `b0 b1 b2 b3`, `svd_readBinInt` returns `FALSE`,
stores the signed 32-bit integer whose unsigned pattern is
`b0*2^24 + b1*2^16 + b2*2^8 + b3`, and advances the stream by exactly four
bytes. -/
theorem readBinInt_bigEndian (h : Endian) (data : List Byte) (pos : Nat) (v0 : Int)
    (b0 b1 b2 b3 : Byte) (tl : List Byte)
    (hrem : (IStream.mk data pos).remaining = b0 :: b1 :: b2 :: b3 :: tl) :
    (svd_readBinInt h ⟨data, pos⟩ v0).1 = FALSE ∧
    (svd_readBinInt h ⟨data, pos⟩ v0).2.2 = ⟨data, pos + 4⟩ ∧
    (IStream.mk data (pos + 4)).remaining = tl ∧
    -2147483648 ≤ (svd_readBinInt h ⟨data, pos⟩ v0).2.1 ∧
    (svd_readBinInt h ⟨data, pos⟩ v0).2.1 < 2147483648 ∧
    toU32 (svd_readBinInt h ⟨data, pos⟩ v0).2.1 =
      b0.val * 2 ^ 24 + b1.val * 2 ^ 16 + b2.val * 2 ^ 8 + b3.val := by
  rw [readBinInt_eq h data pos v0 b0 b1 b2 b3 tl hrem]
  have hl := load32_lt .big ⟨b0, b1, b2, b3⟩
  refine ⟨rfl, rfl, ?_, ?_, ?_, ?_⟩
  · simp only [IStream.remaining] at hrem ⊢
    rw [← List.drop_drop, hrem]
    rfl
  · show -2147483648 ≤ toI32 _
    unfold toI32; split <;> omega
  · show toI32 _ < 2147483648
    unfold toI32; split <;> omega
  · show toU32 (toI32 _) = _
    rw [toU32_toI32, Nat.mod_eq_of_lt hl]
    simp only [load32]
    norm_num

/-- Witness for C3: the bytes `ff ff ff fe` after one byte already consumed,
read on a little-endian host. -/
theorem readBinInt_bigEndian_witness :
    (IStream.mk [9, 255, 255, 255, 254, 1] 1).remaining = [255, 255, 255, 254, 1] ∧
    (svd_readBinInt .little ⟨[9, 255, 255, 255, 254, 1], 1⟩ 0).1 = FALSE ∧
    (svd_readBinInt .little ⟨[9, 255, 255, 255, 254, 1], 1⟩ 0).2.2 =
      ⟨[9, 255, 255, 255, 254, 1], 1 + 4⟩ ∧
    (IStream.mk [9, 255, 255, 255, 254, 1] (1 + 4)).remaining = [1] ∧
    -2147483648 ≤ (svd_readBinInt .little ⟨[9, 255, 255, 255, 254, 1], 1⟩ 0).2.1 ∧
    (svd_readBinInt .little ⟨[9, 255, 255, 255, 254, 1], 1⟩ 0).2.1 < 2147483648 ∧
    toU32 (svd_readBinInt .little ⟨[9, 255, 255, 255, 254, 1], 1⟩ 0).2.1 =
      (255 : Byte).val * 2 ^ 24 + (255 : Byte).val * 2 ^ 16 + (255 : Byte).val * 2 ^ 8
        + (254 : Byte).val :=
  ⟨by decide, readBinInt_bigEndian .little [9, 255, 255, 255, 254, 1] 1 0 255 255 255 254 [1]
    (by decide)⟩

/-- C4: on a host of either byte order and for every 32-bit pattern `p`
(NaN, infinity and signed-zero patterns included), `svd_writeBinFloat` of the
float with bit pattern `p` returns `FALSE` and writes the four big-endian
bytes of `p`, and `svd_readBinFloat` on those bytes returns `FALSE` and
yields the float with bit pattern exactly `p`. -/
theorem writeBinFloat_readBinFloat_roundtrip (h : Endian) (p : Nat) (hp : p < 4294967296)
    (room : Nat) (hroom : 4 ≤ room) (r0 : Float32) :
    svd_writeBinFloat h ⟨[], room⟩ ⟨p⟩ = (FALSE, ⟨(store32 .big p).bytes, room - 4⟩) ∧
    (store32 .big p).bytes.map Fin.val =
      [(p >>> 24) &&& 255, (p >>> 16) &&& 255, (p >>> 8) &&& 255, p &&& 255] ∧
    svd_readBinFloat h ⟨(store32 .big p).bytes, 0⟩ r0 =
      (FALSE, ⟨p⟩, ⟨(store32 .big p).bytes, 4⟩) := by
  refine ⟨?_, bigEndian_bytes_val p, ?_⟩
  · rw [writeBinFloat_eq, if_pos hroom]; rfl
  · simp only [Obj32.bytes]
    rw [readBinFloat_eq h _ 0 r0 _ _ _ _ [] rfl]
    show (FALSE, Float32.mk (load32 .big (store32 .big p)), _) = _
    rw [load32_store32, Nat.mod_eq_of_lt hp]

/-- Witness for C4: the NaN pattern `7fc00001` on a little-endian host. -/
theorem writeBinFloat_readBinFloat_roundtrip_witness :
    (2143289345 < 4294967296 ∧ 4 ≤ 9) ∧
    svd_writeBinFloat .little ⟨[], 9⟩ ⟨2143289345⟩ =
      (FALSE, ⟨(store32 .big 2143289345).bytes, 9 - 4⟩) ∧
    (store32 .big 2143289345).bytes.map Fin.val =
      [(2143289345 >>> 24) &&& 255, (2143289345 >>> 16) &&& 255, (2143289345 >>> 8) &&& 255,
        2143289345 &&& 255] ∧
    svd_readBinFloat .little ⟨(store32 .big 2143289345).bytes, 0⟩ ⟨0⟩ =
      (FALSE, ⟨2143289345⟩, ⟨(store32 .big 2143289345).bytes, 4⟩) :=
  ⟨by decide, writeBinFloat_readBinFloat_roundtrip .little 2143289345 (by decide) 9
    (by decide) ⟨0⟩⟩

/-- C5: when fewer than four bytes remain, `svd_readBinInt` and
`svd_readBinFloat` return `TRUE` and leave the caller's `*val` unchanged, and
every later sequence of reads on the same stream returns `TRUE` each time and
leaves the caller's variables unchanged: no value is ever assembled from the
leftover bytes. -/
theorem truncated_read_fails (h : Endian) (f : IStream) (hk : f.remaining.length < 4)
    (v : Int) (r : Float32) (later : List ReadKind) :
    (svd_readBinInt h f v).1 = TRUE ∧ (svd_readBinInt h f v).2.1 = v ∧
    (svd_readBinFloat h f r).1 = TRUE ∧ (svd_readBinFloat h f r).2.1 = r ∧
    readMany h later (svd_readBinInt h f v).2.2 v r =
      (List.replicate later.length TRUE, v, r) ∧
    readMany h later (svd_readBinFloat h f r).2.2 v r =
      (List.replicate later.length TRUE, v, r) := by
  have hi : svd_readBinInt h f v = (TRUE, v, ⟨f.data, f.pos + f.remaining.length⟩) := by
    simp only [svd_readBinInt, read_short f hk]
  have hf : svd_readBinFloat h f r = (TRUE, r, ⟨f.data, f.pos + f.remaining.length⟩) := by
    simp only [svd_readBinFloat, read_short f hk]
  rw [hi, hf]
  exact ⟨rfl, rfl, rfl, rfl, readMany_exhausted h later _ (remaining_after_short f) v r,
    readMany_exhausted h later _ (remaining_after_short f) v r⟩

/-- Witness for C5: three bytes remain, then a float read and an int read
follow the failed read. -/
theorem truncated_read_fails_witness :
    (IStream.mk [1, 2, 3, 4, 5] 2).remaining.length < 4 ∧
    (svd_readBinInt .little ⟨[1, 2, 3, 4, 5], 2⟩ 11).1 = TRUE ∧
    (svd_readBinInt .little ⟨[1, 2, 3, 4, 5], 2⟩ 11).2.1 = 11 ∧
    (svd_readBinFloat .little ⟨[1, 2, 3, 4, 5], 2⟩ ⟨12⟩).1 = TRUE ∧
    (svd_readBinFloat .little ⟨[1, 2, 3, 4, 5], 2⟩ ⟨12⟩).2.1 = ⟨12⟩ ∧
    readMany .little [.float, .int] (svd_readBinInt .little ⟨[1, 2, 3, 4, 5], 2⟩ 11).2.2
        11 ⟨12⟩ = (List.replicate [ReadKind.float, ReadKind.int].length TRUE, 11, ⟨12⟩) ∧
    readMany .little [.float, .int] (svd_readBinFloat .little ⟨[1, 2, 3, 4, 5], 2⟩ ⟨12⟩).2.2
        11 ⟨12⟩ = (List.replicate [ReadKind.float, ReadKind.int].length TRUE, 11, ⟨12⟩) :=
  ⟨by decide, truncated_read_fails .little ⟨[1, 2, 3, 4, 5], 2⟩ (by decide) 11 ⟨12⟩
    [.float, .int]⟩

theorem sprintf_fits (text : CStr) (h : text.length < 512) : sprintf text = some text := by
  simp [sprintf, MAX_FILENAME, h]

theorem sprintf_overrun (text : CStr) (h : 512 ≤ text.length) : sprintf text = none := by
  have : ¬ text.length < 512 := by omega
  simp [sprintf, MAX_FILENAME, this]

theorem readZippedFile_fits (os : OS) (command fileName : CStr) (s : State)
    (h : command.length + fileName.length + 15 < 512) :
    readZippedFile os command fileName s =
      openPipe os (command ++ " < ".toList ++ fileName ++ " 2>/dev/null".toList) "r".toList s := by
  unfold readZippedFile
  rw [sprintf_fits]
  have e1 : " < ".toList.length = 3 := by decide
  have e2 : " 2>/dev/null".toList.length = 12 := by decide
  simp only [List.length_append, e1, e2]
  omega

/-- The reading of a name that is neither special nor suffixed nor present:
the path taken by `svd_readFile` down to the suffix probes. -/
theorem readFile_to_probe (os : OS) (P : CStr) (s : State)
    (hdash : P ≠ "-".toList) (hbar : P.head? ≠ some '|')
    (hgz : stringEndsIn P ".gz".toList = false) (hZ : stringEndsIn P ".Z".toList = false)
    (hbz : stringEndsIn P ".bz".toList = false) (hbz2 : stringEndsIn P ".bz2".toList = false)
    (hP : os.stat P = false) :
    svd_readFile os P s = svd_readFile_probe os P (s.emit (Event.stat P)) := by
  simp only [svd_readFile, if_neg hdash, if_neg hbar, hgz, hZ, hbz, hbz2, stat, hP,
    Bool.or_self, Bool.false_eq_true, if_false]

theorem unzip_text (f : CStr) :
    UNZIP ++ " < ".toList ++ f ++ " 2>/dev/null".toList =
      "gzip -d < ".toList ++ f ++ " 2>/dev/null".toList := by
  simp [UNZIP]

theorem bunzip2_text (f : CStr) :
    BUNZIP2 ++ " < ".toList ++ f ++ " 2>/dev/null".toList =
      "bzip2 -d < ".toList ++ f ++ " 2>/dev/null".toList := by
  simp [BUNZIP2]

theorem probe_gz (os : OS) (P : CStr) (s : State) (hlen : P.length ≤ 484)
    (h1 : os.stat (P ++ ".gz".toList) = true) :
    svd_readFile_probe os P s =
      openPipe os ("gzip -d < ".toList ++ (P ++ ".gz".toList) ++ " 2>/dev/null".toList)
        "r".toList (s.emit (Event.stat (P ++ ".gz".toList))) := by
  have l1 : (P ++ ".gz".toList).length = P.length + 3 := by simp
  have u : UNZIP.length = 7 := by decide
  unfold svd_readFile_probe
  rw [sprintf_fits _ (by omega)]
  simp only [stat, h1]
  rw [readZippedFile_fits _ _ _ _ (by omega), unzip_text]

theorem probe_Z (os : OS) (P : CStr) (s : State) (hlen : P.length ≤ 484)
    (h1 : os.stat (P ++ ".gz".toList) = false) (h2 : os.stat (P ++ ".Z".toList) = true) :
    svd_readFile_probe os P s =
      openPipe os ("gzip -d < ".toList ++ (P ++ ".Z".toList) ++ " 2>/dev/null".toList)
        "r".toList
        ((s.emit (Event.stat (P ++ ".gz".toList))).emit (Event.stat (P ++ ".Z".toList))) := by
  have l1 : (P ++ ".gz".toList).length = P.length + 3 := by simp
  have l2 : (P ++ ".Z".toList).length = P.length + 2 := by simp
  have u : UNZIP.length = 7 := by decide
  unfold svd_readFile_probe
  rw [sprintf_fits _ (by omega)]
  simp only [stat, h1]
  rw [sprintf_fits _ (by omega)]
  simp only [h2]
  rw [readZippedFile_fits _ _ _ _ (by omega), unzip_text]

theorem probe_bz2 (os : OS) (P : CStr) (s : State) (hlen : P.length ≤ 484)
    (h1 : os.stat (P ++ ".gz".toList) = false) (h2 : os.stat (P ++ ".Z".toList) = false)
    (h3 : os.stat (P ++ ".bz2".toList) = true) :
    svd_readFile_probe os P s =
      openPipe os ("bzip2 -d < ".toList ++ (P ++ ".bz2".toList) ++ " 2>/dev/null".toList)
        "r".toList
        (((s.emit (Event.stat (P ++ ".gz".toList))).emit (Event.stat (P ++ ".Z".toList))).emit
          (Event.stat (P ++ ".bz2".toList))) := by
  have l1 : (P ++ ".gz".toList).length = P.length + 3 := by simp
  have l2 : (P ++ ".Z".toList).length = P.length + 2 := by simp
  have l3 : (P ++ ".bz2".toList).length = P.length + 4 := by simp
  have u : BUNZIP2.length = 8 := by decide
  unfold svd_readFile_probe
  rw [sprintf_fits _ (by omega)]
  simp only [stat, h1]
  rw [sprintf_fits _ (by omega)]
  simp only [h2]
  rw [sprintf_fits _ (by omega)]
  simp only [h3]
  rw [readZippedFile_fits _ _ _ _ (by omega), bunzip2_text]

theorem probe_bz (os : OS) (P : CStr) (s : State) (hlen : P.length ≤ 484)
    (h1 : os.stat (P ++ ".gz".toList) = false) (h2 : os.stat (P ++ ".Z".toList) = false)
    (h3 : os.stat (P ++ ".bz2".toList) = false) (h4 : os.stat (P ++ ".bz".toList) = true) :
    svd_readFile_probe os P s =
      openPipe os ("bzip2 -d < ".toList ++ (P ++ ".bz".toList) ++ " 2>/dev/null".toList)
        "r".toList
        ((((s.emit (Event.stat (P ++ ".gz".toList))).emit (Event.stat (P ++ ".Z".toList))).emit
          (Event.stat (P ++ ".bz2".toList))).emit (Event.stat (P ++ ".bz".toList))) := by
  have l1 : (P ++ ".gz".toList).length = P.length + 3 := by simp
  have l2 : (P ++ ".Z".toList).length = P.length + 2 := by simp
  have l3 : (P ++ ".bz2".toList).length = P.length + 4 := by simp
  have l4 : (P ++ ".bz".toList).length = P.length + 3 := by simp
  have u : BUNZIP2.length = 8 := by decide
  unfold svd_readFile_probe
  rw [sprintf_fits _ (by omega)]
  simp only [stat, h1]
  rw [sprintf_fits _ (by omega)]
  simp only [h2]
  rw [sprintf_fits _ (by omega)]
  simp only [h3]
  rw [sprintf_fits _ (by omega)]
  simp only [h4]
  rw [readZippedFile_fits _ _ _ _ (by omega), bunzip2_text]

theorem probe_none (os : OS) (P : CStr) (s : State) (hlen : P.length ≤ 507)
    (h1 : os.stat (P ++ ".gz".toList) = false) (h2 : os.stat (P ++ ".Z".toList) = false)
    (h3 : os.stat (P ++ ".bz2".toList) = false) (h4 : os.stat (P ++ ".bz".toList) = false) :
    svd_readFile_probe os P s =
      some (FILE.NULL,
        (((s.emit (Event.stat (P ++ ".gz".toList))).emit (Event.stat (P ++ ".Z".toList))).emit
          (Event.stat (P ++ ".bz2".toList))).emit (Event.stat (P ++ ".bz".toList))) := by
  have l1 : (P ++ ".gz".toList).length = P.length + 3 := by simp
  have l2 : (P ++ ".Z".toList).length = P.length + 2 := by simp
  have l3 : (P ++ ".bz2".toList).length = P.length + 4 := by simp
  have l4 : (P ++ ".bz".toList).length = P.length + 3 := by simp
  unfold svd_readFile_probe
  rw [sprintf_fits _ (by omega)]
  simp only [stat, h1]
  rw [sprintf_fits _ (by omega)]
  simp only [h2]
  rw [sprintf_fits _ (by omega)]
  simp only [h3]
  rw [sprintf_fits _ (by omega)]
  simp only [h4]

theorem openPipe_init_some (os : OS) (cmd mode : CStr) (l : List Event) :
    (openPipe os cmd mode ⟨fun _ => FILE.NULL, 0, l⟩).isSome = true := by
  simp only [openPipe]
  split
  · simp [registerPipe, MAX_PIPES, State.emit]
  · rfl

theorem osOnly_absent (P x : CStr) (hx : x ≠ []) : (osOnly (P ++ x)).stat P = false := by
  simp [osOnly, hx]

theorem osOnly_present (P : CStr) : (osOnly P).stat P = true := by
  simp [osOnly]

theorem longPath_length : longPath.length = 600 := by
  unfold longPath; exact List.length_replicate 600 'a'

set_option maxRecDepth 100000 in
theorem longPath_plain :
    longPath ≠ "-".toList ∧ longPath.head? ≠ some '|' ∧
    stringEndsIn longPath ".gz".toList = false ∧ stringEndsIn longPath ".Z".toList = false ∧
    stringEndsIn longPath ".bz".toList = false ∧ stringEndsIn longPath ".bz2".toList = false := by
  decide

/-- C6, as amended: for every path `P` of at most 484 characters that is not
"-", does not start with a bar, does not end in `.gz`, `.Z`, `.bz` or `.bz2`
and does not exist, `svd_readFile` opens the first existing candidate in the
order `P.gz`, `P.Z`, `P.bz2`, `P.bz` and probes no later one (the log holds
the `stat` calls up to that candidate only): the first two with the command
`gzip -d < candidate 2>/dev/null`, the last two with
`bzip2 -d < candidate 2>/dev/null`. -/
theorem readFile_probe_order (os : OS) (P : CStr) (s : State) (hlen : P.length ≤ 484)
    (hdash : P ≠ "-".toList) (hbar : P.head? ≠ some '|')
    (hgz : stringEndsIn P ".gz".toList = false) (hZ : stringEndsIn P ".Z".toList = false)
    (hbz : stringEndsIn P ".bz".toList = false) (hbz2 : stringEndsIn P ".bz2".toList = false)
    (hP : os.stat P = false) :
    (os.stat (P ++ ".gz".toList) = true →
      svd_readFile os P s =
        openPipe os ("gzip -d < ".toList ++ (P ++ ".gz".toList) ++ " 2>/dev/null".toList)
          "r".toList ((s.emit (Event.stat P)).emit (Event.stat (P ++ ".gz".toList)))) ∧
    (os.stat (P ++ ".gz".toList) = false → os.stat (P ++ ".Z".toList) = true →
      svd_readFile os P s =
        openPipe os ("gzip -d < ".toList ++ (P ++ ".Z".toList) ++ " 2>/dev/null".toList)
          "r".toList
          (((s.emit (Event.stat P)).emit (Event.stat (P ++ ".gz".toList))).emit
            (Event.stat (P ++ ".Z".toList)))) ∧
    (os.stat (P ++ ".gz".toList) = false → os.stat (P ++ ".Z".toList) = false →
      os.stat (P ++ ".bz2".toList) = true →
      svd_readFile os P s =
        openPipe os ("bzip2 -d < ".toList ++ (P ++ ".bz2".toList) ++ " 2>/dev/null".toList)
          "r".toList
          ((((s.emit (Event.stat P)).emit (Event.stat (P ++ ".gz".toList))).emit
            (Event.stat (P ++ ".Z".toList))).emit (Event.stat (P ++ ".bz2".toList)))) ∧
    (os.stat (P ++ ".gz".toList) = false → os.stat (P ++ ".Z".toList) = false →
      os.stat (P ++ ".bz2".toList) = false → os.stat (P ++ ".bz".toList) = true →
      svd_readFile os P s =
        openPipe os ("bzip2 -d < ".toList ++ (P ++ ".bz".toList) ++ " 2>/dev/null".toList)
          "r".toList
          (((((s.emit (Event.stat P)).emit (Event.stat (P ++ ".gz".toList))).emit
            (Event.stat (P ++ ".Z".toList))).emit (Event.stat (P ++ ".bz2".toList))).emit
            (Event.stat (P ++ ".bz".toList)))) := by
  rw [readFile_to_probe os P s hdash hbar hgz hZ hbz hbz2 hP]
  exact ⟨fun h1 => probe_gz os P _ hlen h1, fun h1 h2 => probe_Z os P _ hlen h1 h2,
    fun h1 h2 h3 => probe_bz2 os P _ hlen h1 h2 h3,
    fun h1 h2 h3 h4 => probe_bz os P _ hlen h1 h2 h3 h4⟩

/-- Witness for C6: `name.gz` and `name.Z` both exist, `name` does not; the
command names `name.gz`. -/
theorem readFile_probe_order_witness :
    ("name".toList.length ≤ 484 ∧ "name".toList ≠ "-".toList ∧
      "name".toList.head? ≠ some '|' ∧ stringEndsIn "name".toList ".gz".toList = false ∧
      stringEndsIn "name".toList ".Z".toList = false ∧
      stringEndsIn "name".toList ".bz".toList = false ∧
      stringEndsIn "name".toList ".bz2".toList = false) ∧
    svd_readFile
        ⟨fun p => decide (p = "name.gz".toList ∨ p = "name.Z".toList), fun _ _ => some 1,
          fun _ _ => some 2⟩ "name".toList State.init =
      openPipe
        ⟨fun p => decide (p = "name.gz".toList ∨ p = "name.Z".toList), fun _ _ => some 1,
          fun _ _ => some 2⟩
        ("gzip -d < ".toList ++ ("name".toList ++ ".gz".toList) ++ " 2>/dev/null".toList)
        "r".toList
        ((State.init.emit (Event.stat "name".toList)).emit
          (Event.stat ("name".toList ++ ".gz".toList))) :=
  ⟨by decide,
    (readFile_probe_order
      ⟨fun p => decide (p = "name.gz".toList ∨ p = "name.Z".toList), fun _ _ => some 1,
        fun _ _ => some 2⟩ "name".toList State.init (by decide) (by decide) (by decide)
      (by decide) (by decide) (by decide) (by decide) (by decide)).1 (by decide)⟩

/-- Counterexample to C6 as stated (for every path): with the 600-character
name `longPath` absent and `longPath.gz` present, formatting the candidate
name overruns the 512-byte buffer, so the call does not open the candidate. -/
theorem readFile_probe_order_long_path_fails :
    ¬ (∀ (os : OS) (P : CStr) (s : State), P ≠ "-".toList → P.head? ≠ some '|' →
        stringEndsIn P ".gz".toList = false → stringEndsIn P ".Z".toList = false →
        stringEndsIn P ".bz".toList = false → stringEndsIn P ".bz2".toList = false →
        os.stat P = false → os.stat (P ++ ".gz".toList) = true →
        svd_readFile os P s =
          openPipe os ("gzip -d < ".toList ++ (P ++ ".gz".toList) ++ " 2>/dev/null".toList)
            "r".toList ((s.emit (Event.stat P)).emit (Event.stat (P ++ ".gz".toList)))) := by
  intro H
  obtain ⟨h1, h2, h3, h4, h5, h6⟩ := longPath_plain
  have hP : (osOnly (longPath ++ ".gz".toList)).stat longPath = false :=
    osOnly_absent longPath _ (by decide)
  have hG : (osOnly (longPath ++ ".gz".toList)).stat (longPath ++ ".gz".toList) = true :=
    osOnly_present _
  have e := H (osOnly (longPath ++ ".gz".toList)) longPath State.init h1 h2 h3 h4 h5 h6 hP hG
  rw [readFile_to_probe _ _ _ h1 h2 h3 h4 h5 h6 hP] at e
  have hov : svd_readFile_probe (osOnly (longPath ++ ".gz".toList)) longPath
      (State.init.emit (Event.stat longPath)) = none := by
    unfold svd_readFile_probe
    rw [sprintf_overrun _ (by rw [List.length_append, longPath_length]; omega)]
  have hs := openPipe_init_some (osOnly (longPath ++ ".gz".toList))
    ("gzip -d < ".toList ++ (longPath ++ ".gz".toList) ++ " 2>/dev/null".toList) "r".toList
    ([Event.stat longPath] ++ [Event.stat (longPath ++ ".gz".toList)])
  rw [hov] at e
  have e2 : ((State.init.emit (Event.stat longPath)).emit
      (Event.stat (longPath ++ ".gz".toList))) =
      ⟨fun _ => FILE.NULL, 0, [Event.stat longPath] ++ [Event.stat (longPath ++ ".gz".toList)]⟩ :=
    rfl
  rw [e2] at e
  rw [← e] at hs
  exact absurd hs (by decide)

theorem openPipe_not_null (os : OS) (cmd mode : CStr) (s s1 : State)
    (hpopen : os.popen cmd mode ≠ none) : openPipe os cmd mode s ≠ some (FILE.NULL, s1) := by
  simp only [openPipe]
  cases hp : os.popen cmd mode with
  | none => exact absurd hp hpopen
  | some id =>
    simp only [FILE.ofAnswer, ne_eq, reduceCtorEq, not_false_eq_true, if_true]
    cases registerPipe (FILE.stream id) _ <;> simp

theorem readZippedFile_not_null (os : OS) (command fileName : CStr) (s s1 : State)
    (hpopen : ∀ c m, os.popen c m ≠ none) :
    readZippedFile os command fileName s ≠ some (FILE.NULL, s1) := by
  unfold readZippedFile
  split
  · simp
  · exact openPipe_not_null os _ _ s s1 (hpopen _ _)

theorem probe_null_iff (os : OS) (P : CStr) (s : State) (hlen : P.length ≤ 507)
    (hpopen : ∀ c m, os.popen c m ≠ none) :
    (∃ s1, svd_readFile_probe os P s = some (FILE.NULL, s1)) ↔
      (os.stat (P ++ ".gz".toList) = false ∧ os.stat (P ++ ".Z".toList) = false ∧
        os.stat (P ++ ".bz2".toList) = false ∧ os.stat (P ++ ".bz".toList) = false) := by
  have l1 : (P ++ ".gz".toList).length = P.length + 3 := by simp
  have l2 : (P ++ ".Z".toList).length = P.length + 2 := by simp
  have l3 : (P ++ ".bz2".toList).length = P.length + 4 := by simp
  have l4 : (P ++ ".bz".toList).length = P.length + 3 := by simp
  cases h1 : os.stat (P ++ ".gz".toList) with
  | true =>
    simp only [Bool.true_eq_false, false_and, iff_false, not_exists]
    intro s1
    unfold svd_readFile_probe
    rw [sprintf_fits _ (by omega)]
    simp only [stat, h1]
    exact readZippedFile_not_null os _ _ _ s1 hpopen
  | false =>
    cases h2 : os.stat (P ++ ".Z".toList) with
    | true =>
      simp only [Bool.true_eq_false, false_and, and_false, iff_false, not_exists]
      intro s1
      unfold svd_readFile_probe
      rw [sprintf_fits _ (by omega)]
      simp only [stat, h1]
      rw [sprintf_fits _ (by omega)]
      simp only [h2]
      exact readZippedFile_not_null os _ _ _ s1 hpopen
    | false =>
      cases h3 : os.stat (P ++ ".bz2".toList) with
      | true =>
        simp only [Bool.true_eq_false, false_and, and_false, iff_false, not_exists]
        intro s1
        unfold svd_readFile_probe
        rw [sprintf_fits _ (by omega)]
        simp only [stat, h1]
        rw [sprintf_fits _ (by omega)]
        simp only [h2]
        rw [sprintf_fits _ (by omega)]
        simp only [h3]
        exact readZippedFile_not_null os _ _ _ s1 hpopen
      | false =>
        cases h4 : os.stat (P ++ ".bz".toList) with
        | true =>
          simp only [Bool.true_eq_false, and_false, iff_false, not_exists]
          intro s1
          unfold svd_readFile_probe
          rw [sprintf_fits _ (by omega)]
          simp only [stat, h1]
          rw [sprintf_fits _ (by omega)]
          simp only [h2]
          rw [sprintf_fits _ (by omega)]
          simp only [h3]
          rw [sprintf_fits _ (by omega)]
          simp only [h4]
          exact readZippedFile_not_null os _ _ _ s1 hpopen
        | false =>
          simp only [and_self, iff_true]
          exact ⟨_, probe_none os P s hlen h1 h2 h3 h4⟩

theorem fopen_not_null (os : OS) (path mode : CStr) (s s1 : State)
    (h : os.fopen path mode ≠ none) : fopen os path mode s ≠ (FILE.NULL, s1) := by
  unfold fopen
  cases hp : os.fopen path mode with
  | none => exact absurd hp h
  | some id => simp [FILE.ofAnswer]

/-- C7, as amended: for every path `P` of at most 507 characters that is not
"-" and does not start with a bar, every spawn and every plain open of an
existing file succeeding: when `P` ends in `.gz`, `.Z`, `.bz` or `.bz2`,
`svd_readFile` returns `NULL` if and only if `P` itself does not exist, and
then only `P` was probed; when `P` ends in none of them, it returns `NULL`
if and only if none of `P`, `P.gz`, `P.Z`, `P.bz2`, `P.bz` exists. -/
theorem readFile_not_found_iff (os : OS) (P : CStr) (s : State) (hlen : P.length ≤ 507)
    (hdash : P ≠ "-".toList) (hbar : P.head? ≠ some '|')
    (hpopen : ∀ c m, os.popen c m ≠ none)
    (hfopen : ∀ p m, os.stat p = true → os.fopen p m ≠ none) :
    ((stringEndsIn P ".gz".toList || stringEndsIn P ".Z".toList ||
        stringEndsIn P ".bz".toList || stringEndsIn P ".bz2".toList) = true →
      ((∃ s1, svd_readFile os P s = some (FILE.NULL, s1)) ↔ os.stat P = false) ∧
      (os.stat P = false → svd_readFile os P s = some (FILE.NULL, s.emit (Event.stat P)))) ∧
    ((stringEndsIn P ".gz".toList || stringEndsIn P ".Z".toList ||
        stringEndsIn P ".bz".toList || stringEndsIn P ".bz2".toList) = false →
      ((∃ s1, svd_readFile os P s = some (FILE.NULL, s1)) ↔
        (os.stat P = false ∧ os.stat (P ++ ".gz".toList) = false ∧
          os.stat (P ++ ".Z".toList) = false ∧ os.stat (P ++ ".bz2".toList) = false ∧
          os.stat (P ++ ".bz".toList) = false))) := by
  constructor
  · intro hs
    have key : svd_readFile os P s =
        (if os.stat P = true then
          readZippedFile os
            (if (stringEndsIn P ".gz".toList || stringEndsIn P ".Z".toList) = true then UNZIP
              else BUNZIP2) P (s.emit (Event.stat P))
        else some (FILE.NULL, s.emit (Event.stat P))) := by
      simp only [svd_readFile, if_neg hdash, if_neg hbar, stat]
      by_cases hg : (stringEndsIn P ".gz".toList || stringEndsIn P ".Z".toList) = true
      · rw [if_pos hg, if_pos hg]
        cases os.stat P <;> simp
      · have hb : (stringEndsIn P ".bz".toList || stringEndsIn P ".bz2".toList) = true := by
          simp only [Bool.or_eq_true, not_or] at hg hs ⊢
          rcases hs with ((h | h) | h) | h
          · exact absurd h hg.1
          · exact absurd h hg.2
          · exact Or.inl h
          · exact Or.inr h
        rw [if_neg hg, if_pos hb, if_neg hg]
        cases os.stat P <;> simp
    constructor
    · cases hP : os.stat P with
      | true =>
        simp only [Bool.true_eq_false, iff_false, not_exists]
        intro s1
        rw [key, hP, if_pos rfl]
        exact readZippedFile_not_null os _ _ _ s1 hpopen
      | false =>
        simp only [iff_true]
        exact ⟨_, by rw [key, hP]; rfl⟩
    · intro hP
      rw [key, hP]; rfl
  · intro hs
    simp only [Bool.or_eq_false_iff] at hs
    obtain ⟨⟨⟨hgz, hZ⟩, hbz⟩, hbz2⟩ := hs
    cases hP : os.stat P with
    | true =>
      simp only [Bool.true_eq_false, false_and, iff_false, not_exists]
      intro s1 hcontra
      simp only [svd_readFile, if_neg hdash, if_neg hbar, hgz, hZ, hbz, hbz2, stat, hP,
        Bool.or_self, Bool.false_eq_true, if_false, Option.some.injEq] at hcontra
      exact fopen_not_null os P _ _ s1 (hfopen P _ hP) hcontra
    | false =>
      rw [readFile_to_probe os P s hdash hbar hgz hZ hbz hbz2 hP,
        probe_null_iff os P _ hlen hpopen]
      simp

/-- Witness for C7: `a.gz` does not exist while `a.gz.gz` does. -/
theorem readFile_not_found_iff_witness :
    ("a.gz".toList.length ≤ 507 ∧ "a.gz".toList ≠ "-".toList ∧
      "a.gz".toList.head? ≠ some '|' ∧
      (∀ c m, (osOnly "a.gz.gz".toList).popen c m ≠ none) ∧
      (∀ p m, (osOnly "a.gz.gz".toList).stat p = true →
        (osOnly "a.gz.gz".toList).fopen p m ≠ none)) ∧
    (∃ s1, svd_readFile (osOnly "a.gz.gz".toList) "a.gz".toList State.init =
      some (FILE.NULL, s1)) :=
  ⟨⟨by decide, by decide, by decide, fun _ _ => by simp [osOnly], fun _ _ _ => by simp [osOnly]⟩,
    ((readFile_not_found_iff (osOnly "a.gz.gz".toList) "a.gz".toList State.init (by decide)
      (by decide) (by decide) (fun _ _ => by simp [osOnly]) (fun _ _ _ => by simp [osOnly])).1
      (by decide)).1.2 (by decide)⟩

/-- Counterexample to C7 as stated, in two parts. First: `a.gz` does not
exist and `a.gz.gz` does, every spawn and open succeeding;
`svd_readFile("a.gz")` returns `NULL` although one of the five names exists,
because a name that ends in a recognised suffix is not passed on to the
suffix candidates. Second: even for names without such a suffix the
equivalence fails at the 600-character name `longPath`, none of the five
names existing: formatting a candidate overruns the buffer and no `NULL` is
returned. -/
theorem readFile_not_found_iff_fails :
    ¬ (∀ (os : OS) (P : CStr) (s : State), P ≠ "-".toList → P.head? ≠ some '|' →
        (∀ c m, os.popen c m ≠ none) →
        (∀ p m, os.stat p = true → os.fopen p m ≠ none) →
        ((∃ s1, svd_readFile os P s = some (FILE.NULL, s1)) ↔
          (os.stat P = false ∧ os.stat (P ++ ".gz".toList) = false ∧
            os.stat (P ++ ".Z".toList) = false ∧ os.stat (P ++ ".bz2".toList) = false ∧
            os.stat (P ++ ".bz".toList) = false))) ∧
    ¬ (∀ (os : OS) (P : CStr) (s : State), P ≠ "-".toList → P.head? ≠ some '|' →
        (stringEndsIn P ".gz".toList || stringEndsIn P ".Z".toList ||
          stringEndsIn P ".bz".toList || stringEndsIn P ".bz2".toList) = false →
        (∀ c m, os.popen c m ≠ none) →
        (∀ p m, os.stat p = true → os.fopen p m ≠ none) →
        ((∃ s1, svd_readFile os P s = some (FILE.NULL, s1)) ↔
          (os.stat P = false ∧ os.stat (P ++ ".gz".toList) = false ∧
            os.stat (P ++ ".Z".toList) = false ∧ os.stat (P ++ ".bz2".toList) = false ∧
            os.stat (P ++ ".bz".toList) = false))) := by
  constructor
  · intro H
    have h := H (osOnly "a.gz.gz".toList) "a.gz".toList State.init (by decide) (by decide)
      (fun _ _ => by simp [osOnly]) (fun _ _ _ => by simp [osOnly])
    have hnull : ∃ s1, svd_readFile (osOnly "a.gz.gz".toList) "a.gz".toList State.init =
        some (FILE.NULL, s1) := ⟨_, rfl⟩
    have hgz := (h.1 hnull).2.1
    exact absurd hgz (by decide)
  · intro H
    obtain ⟨h1, h2, h3, h4, h5, h6⟩ := longPath_plain
    have hP : (osOnly []).stat longPath = false := by
      have := longPath_length
      simp only [osOnly, decide_eq_false_iff_not]
      intro e; rw [e] at this; simp at this
    have hx : ∀ x : CStr, x ≠ [] → (osOnly []).stat (longPath ++ x) = false := by
      intro x hx
      simp [osOnly, hx]
    have h := H (osOnly []) longPath State.init h1 h2 (by rw [h3, h4, h5, h6]; rfl)
      (fun _ _ => by simp [osOnly]) (fun _ _ _ => by simp [osOnly])
    obtain ⟨s1, hs1⟩ := h.2 ⟨hP, hx _ (by decide), hx _ (by decide), hx _ (by decide),
      hx _ (by decide)⟩
    rw [readFile_to_probe _ _ _ h1 h2 h3 h4 h5 h6 hP] at hs1
    unfold svd_readFile_probe at hs1
    rw [sprintf_overrun _ (by rw [List.length_append, longPath_length]; omega)] at hs1
    exact absurd hs1 (by simp)

theorem registerPipe_below (p : FILE) (s : State) (h : s.numPipes < MAX_PIPES) :
    registerPipe p s =
      some ⟨Function.update s.Pipe s.numPipes p, s.numPipes + 1, s.log⟩ := by
  have h1 : ¬ s.numPipes ≥ MAX_PIPES := by omega
  simp only [registerPipe, if_neg h1, if_pos h]

theorem registerPipe_full (p : FILE) (s : State) (h : MAX_PIPES ≤ s.numPipes) :
    registerPipe p s = none := by
  have h1 : s.numPipes ≥ MAX_PIPES := h
  have h2 : ¬ (svd_error "Too many pipes open".toList s).numPipes < MAX_PIPES := by
    simp only [svd_error, State.emit]; omega
  simp only [registerPipe, if_pos h1, if_neg h2]

theorem openPipe_eq (os : OS) (cmd mode : CStr) (s : State) :
    openPipe os cmd mode s =
      match os.popen cmd mode with
      | none =>
        some (FILE.NULL,
          (s.emit Event.fflush_stdout).emit (Event.popen cmd mode FILE.NULL))
      | some id =>
        (registerPipe (FILE.stream id)
          ((s.emit Event.fflush_stdout).emit (Event.popen cmd mode (FILE.stream id)))).map
          (fun s3 => (FILE.stream id, s3)) := by
  simp only [openPipe]
  cases os.popen cmd mode <;> simp [FILE.ofAnswer]

/-- C8: for every path that starts with a bar, whatever follows it and
whatever files exist, `svd_readFile` and `svd_writeFile` call `openPipe` on
exactly the remainder of the path (mode `r`, respectively `w`) and nothing
else: the only outside calls are `fflush(stdout)` and `popen` of that
command, no `stat` and no suffix handling; a failed spawn returns `NULL` and
registers nothing, a successful one is passed to `registerPipe`, which below
the capacity stores the handle at `Pipe[numPipes]` and increments
`numPipes`. -/
theorem bar_path_spawns_remainder (os : OS) (cmd : CStr) (append : Int) (s : State) :
    svd_readFile os ('|' :: cmd) s = openPipe os cmd "r".toList s ∧
    svd_writeFile os ('|' :: cmd) append s = openPipe os cmd "w".toList s ∧
    (∀ mode, os.popen cmd mode = none →
      openPipe os cmd mode s =
        some (FILE.NULL, ⟨s.Pipe, s.numPipes,
          s.log ++ [Event.fflush_stdout, Event.popen cmd mode FILE.NULL]⟩)) ∧
    (∀ mode id, os.popen cmd mode = some id →
      openPipe os cmd mode s =
        (registerPipe (FILE.stream id)
          ⟨s.Pipe, s.numPipes,
            s.log ++ [Event.fflush_stdout, Event.popen cmd mode (FILE.stream id)]⟩).map
          (fun s3 => (FILE.stream id, s3))) ∧
    (∀ mode id, os.popen cmd mode = some id → s.numPipes < MAX_PIPES →
      openPipe os cmd mode s =
        some (FILE.stream id, ⟨Function.update s.Pipe s.numPipes (FILE.stream id),
          s.numPipes + 1,
          s.log ++ [Event.fflush_stdout, Event.popen cmd mode (FILE.stream id)]⟩)) := by
  have hne : ('|' :: cmd) ≠ "-".toList := by
    intro h; exact absurd (List.cons.inj h).1 (by decide)
  refine ⟨?_, ?_, ?_, ?_, ?_⟩
  · simp only [svd_readFile, if_neg hne, List.head?_cons, if_true, List.tail_cons]
  · simp only [svd_writeFile, if_neg hne, List.head?_cons, if_true, List.tail_cons]
  · intro mode h
    rw [openPipe_eq, h]
    simp [State.emit]
  · intro mode id h
    rw [openPipe_eq, h]
    simp [State.emit]
  · intro mode id h hcap
    rw [openPipe_eq, h]
    simp only [State.emit, List.append_assoc, List.singleton_append]
    rw [registerPipe_below (FILE.stream id)
      ⟨s.Pipe, s.numPipes, s.log ++ [Event.fflush_stdout, Event.popen cmd mode (FILE.stream id)]⟩
      hcap]
    rfl

/-- Witness for C8: the path `|cmd.gz` while a file `cmd.gz` exists. -/
theorem bar_path_spawns_remainder_witness :
    svd_readFile (osOnly "cmd.gz".toList) "|cmd.gz".toList State.init =
        openPipe (osOnly "cmd.gz".toList) "cmd.gz".toList "r".toList State.init ∧
    openPipe (osOnly "cmd.gz".toList) "cmd.gz".toList "r".toList State.init =
      some (FILE.stream 1, ⟨Function.update State.init.Pipe State.init.numPipes (FILE.stream 1),
        State.init.numPipes + 1,
        State.init.log ++ [Event.fflush_stdout,
          Event.popen "cmd.gz".toList "r".toList (FILE.stream 1)]⟩) :=
  ⟨(bar_path_spawns_remainder (osOnly "cmd.gz".toList) "cmd.gz".toList 0 State.init).1,
    (bar_path_spawns_remainder (osOnly "cmd.gz".toList) "cmd.gz".toList 0 State.init).2.2.2.2
      "r".toList 1 rfl (by decide)⟩

theorem isPipe_loop_spec (s : State) (p : FILE) (fuel j : Nat) (hj : j ≤ s.numPipes)
    (hfuel : s.numPipes - j ≤ fuel) :
    j ≤ isPipe_loop s p fuel j ∧ isPipe_loop s p fuel j ≤ s.numPipes ∧
    (isPipe_loop s p fuel j < s.numPipes → s.Pipe (isPipe_loop s p fuel j) = p) ∧
    (∀ k, j ≤ k → k < isPipe_loop s p fuel j → s.Pipe k ≠ p) := by
  induction fuel generalizing j with
  | zero =>
    have : j = s.numPipes := by omega
    simp only [isPipe_loop]
    exact ⟨le_refl _, hj, fun h => absurd h (by omega), fun k h1 h2 => absurd h2 (by omega)⟩
  | succ n ih =>
    simp only [isPipe_loop]
    by_cases hc : j < s.numPipes ∧ s.Pipe j ≠ p
    · rw [if_pos hc]
      obtain ⟨h1, h2, h3, h4⟩ := ih (j + 1) (by omega) (by omega)
      refine ⟨by omega, h2, h3, ?_⟩
      intro k hk1 hk2
      by_cases hkj : k = j
      · rw [hkj]; exact hc.2
      · exact h4 k (by omega) hk2
    · rw [if_neg hc]
      refine ⟨le_refl _, hj, ?_, fun k h1 h2 => absurd h2 (by omega)⟩
      intro hlt
      by_contra hne
      exact hc ⟨hlt, hne⟩

theorem isPipe_absent (p : FILE) (s : State) (h : ∀ k, k < s.numPipes → s.Pipe k ≠ p) :
    isPipe p s = (FALSE, s) := by
  obtain ⟨_, h2, h3, _⟩ := isPipe_loop_spec s p s.numPipes 0 (Nat.zero_le _) (by omega)
  have hi : isPipe_loop s p s.numPipes 0 = s.numPipes := by
    by_contra hne
    have hlt : isPipe_loop s p s.numPipes 0 < s.numPipes := by omega
    exact h _ hlt (h3 hlt)
  simp only [isPipe, hi, if_true]

theorem isPipe_present (p : FILE) (s : State) (k : Nat) (hk : k < s.numPipes)
    (hp : s.Pipe k = p) :
    ∃ i, i < s.numPipes ∧ s.Pipe i = p ∧
      isPipe p s = (TRUE, ⟨Function.update s.Pipe i (s.Pipe (s.numPipes - 1)),
        s.numPipes - 1, s.log⟩) := by
  obtain ⟨_, h2, h3, h4⟩ := isPipe_loop_spec s p s.numPipes 0 (Nat.zero_le _) (by omega)
  have hlt : isPipe_loop s p s.numPipes 0 < s.numPipes := by
    by_contra hge
    have : isPipe_loop s p s.numPipes 0 = s.numPipes := by omega
    exact h4 k (Nat.zero_le _) (by omega) hp
  refine ⟨_, hlt, h3 hlt, ?_⟩
  simp only [isPipe, if_neg (Nat.ne_of_lt hlt)]

theorem live_emit (s : State) (e : Event) : live (s.emit e).log = liveStep (live s.log) e := by
  simp only [State.emit, live, List.foldl_append, List.foldl_cons, List.foldl_nil]

theorem same_refl (s : State) : Same s s := ⟨rfl, rfl, rfl⟩

theorem same_stat (os : OS) (path : CStr) (s : State) : Same s (stat os path s).2 :=
  ⟨rfl, rfl, by simp only [stat, live_emit, liveStep]⟩

theorem same_emit_stat (path : CStr) (s : State) : Same s (s.emit (Event.stat path)) :=
  ⟨rfl, rfl, by simp only [live_emit, liveStep]⟩

theorem OpenEffect.of_same {s s0 s1 : State} {f : FILE} (h : Same s s0)
    (e : OpenEffect s0 f s1) : OpenEffect s f s1 := by
  obtain ⟨hP, hn, hl⟩ := h
  cases e with
  | nothing hs hf =>
    exact .nothing ⟨hs.1.trans hP, hs.2.1.trans hn, hs.2.2.trans hl⟩ hf
  | spawn id hf hc hp hn1 hl1 =>
    exact .spawn id hf (by omega) (by rw [hp, hP, hn]) (by omega) (by rw [hl1, hl])
  | direct id hf hp hn1 hl1 =>
    exact .direct id hf (hp.trans hP) (hn1.trans hn) (by rw [hl1, hl])

theorem openPipe_effect (os : OS) (cmd mode : CStr) (s : State) (f : FILE) (s1 : State)
    (h : openPipe os cmd mode s = some (f, s1)) : OpenEffect s f s1 := by
  rw [openPipe_eq] at h
  cases hp : os.popen cmd mode with
  | none =>
    rw [hp] at h
    simp only [Option.some.injEq, Prod.mk.injEq] at h
    obtain ⟨hf, hs⟩ := h
    subst hf hs
    refine .nothing ⟨rfl, rfl, ?_⟩ (Or.inl rfl)
    simp only [live_emit, liveStep, if_true]
  | some id =>
    rw [hp] at h
    simp only at h
    by_cases hcap : s.numPipes < MAX_PIPES
    · rw [registerPipe_below _ ((s.emit Event.fflush_stdout).emit _) hcap] at h
      simp only [Option.map_some', Option.some.injEq, Prod.mk.injEq] at h
      obtain ⟨hf, hs⟩ := h
      subst hf hs
      refine .spawn id rfl hcap rfl rfl ?_
      show live ((s.emit Event.fflush_stdout).emit _).log = _
      simp only [live_emit, liveStep, reduceCtorEq, if_false]
    · rw [registerPipe_full _ ((s.emit Event.fflush_stdout).emit _)
        (by simp only [State.emit]; omega)] at h
      simp at h

theorem readZippedFile_effect (os : OS) (command fileName : CStr) (s : State) (f : FILE)
    (s1 : State) (h : readZippedFile os command fileName s = some (f, s1)) :
    OpenEffect s f s1 := by
  unfold readZippedFile at h
  split at h
  · simp at h
  · exact openPipe_effect _ _ _ _ _ _ h

theorem fopen_effect (os : OS) (path mode : CStr) (s : State) :
    OpenEffect s (fopen os path mode s).1 (fopen os path mode s).2 := by
  unfold fopen
  cases os.fopen path mode with
  | none =>
    refine .nothing ⟨rfl, rfl, ?_⟩ (Or.inl rfl)
    simp only [FILE.ofAnswer, live_emit, liveStep, if_true]
  | some id =>
    refine .direct id rfl rfl rfl ?_
    simp only [FILE.ofAnswer, live_emit, liveStep, reduceCtorEq, if_false]

theorem probe_effect (os : OS) (P : CStr) (s : State) (f : FILE) (s1 : State)
    (h : svd_readFile_probe os P s = some (f, s1)) : OpenEffect s f s1 := by
  unfold svd_readFile_probe at h
  simp only [stat] at h
  split at h
  · simp at h
  · cases h1 : os.stat _ with
    | true =>
      rw [h1] at h
      exact .of_same (same_emit_stat _ _) (readZippedFile_effect _ _ _ _ _ _ h)
    | false =>
      rw [h1] at h
      simp only at h
      split at h
      · simp at h
      · cases h2 : os.stat _ with
        | true =>
          rw [h2] at h
          exact .of_same (same_emit_stat _ _)
            (.of_same (same_emit_stat _ _) (readZippedFile_effect _ _ _ _ _ _ h))
        | false =>
          rw [h2] at h
          simp only at h
          split at h
          · simp at h
          · cases h3 : os.stat _ with
            | true =>
              rw [h3] at h
              exact .of_same (same_emit_stat _ _) (.of_same (same_emit_stat _ _)
                (.of_same (same_emit_stat _ _) (readZippedFile_effect _ _ _ _ _ _ h)))
            | false =>
              rw [h3] at h
              simp only at h
              split at h
              · simp at h
              · cases h4 : os.stat _ with
                | true =>
                  rw [h4] at h
                  exact .of_same (same_emit_stat _ _) (.of_same (same_emit_stat _ _)
                    (.of_same (same_emit_stat _ _) (.of_same (same_emit_stat _ _)
                      (readZippedFile_effect _ _ _ _ _ _ h))))
                | false =>
                  rw [h4] at h
                  simp only [Option.some.injEq, Prod.mk.injEq] at h
                  obtain ⟨hf, hs⟩ := h
                  subst hf hs
                  exact .of_same (same_emit_stat _ _) (.of_same (same_emit_stat _ _)
                    (.of_same (same_emit_stat _ _) (.of_same (same_emit_stat _ _)
                      (.nothing (same_refl _) (Or.inl rfl)))))

theorem readFile_effect (os : OS) (P : CStr) (s : State) (f : FILE) (s1 : State)
    (h : svd_readFile os P s = some (f, s1)) : OpenEffect s f s1 := by
  unfold svd_readFile at h
  simp only [stat] at h
  split at h
  · simp only [Option.some.injEq, Prod.mk.injEq] at h
    obtain ⟨hf, hs⟩ := h
    subst hf hs
    exact .nothing (same_refl _) (Or.inr (Or.inl rfl))
  · split at h
    · exact openPipe_effect _ _ _ _ _ _ h
    · split at h
      · cases hP : os.stat P with
        | true =>
          rw [hP] at h
          exact .of_same (same_emit_stat _ _) (readZippedFile_effect _ _ _ _ _ _ h)
        | false =>
          rw [hP] at h
          simp only [Option.some.injEq, Prod.mk.injEq] at h
          obtain ⟨hf, hs⟩ := h
          subst hf hs
          exact .of_same (same_emit_stat _ _) (.nothing (same_refl _) (Or.inl rfl))
      · split at h
        · cases hP : os.stat P with
          | true =>
            rw [hP] at h
            exact .of_same (same_emit_stat _ _) (readZippedFile_effect _ _ _ _ _ _ h)
          | false =>
            rw [hP] at h
            simp only [Option.some.injEq, Prod.mk.injEq] at h
            obtain ⟨hf, hs⟩ := h
            subst hf hs
            exact .of_same (same_emit_stat _ _) (.nothing (same_refl _) (Or.inl rfl))
        · cases hP : os.stat P with
          | true =>
            rw [hP] at h
            simp only [Option.some.injEq] at h
            have e := fopen_effect os P "r".toList (s.emit (Event.stat P))
            rw [h] at e
            exact .of_same (same_emit_stat _ _) e
          | false =>
            rw [hP] at h
            exact .of_same (same_emit_stat _ _) (probe_effect _ _ _ _ _ h)

theorem writeZippedFile_effect (os : OS) (P : CStr) (append : Int) (s : State) (f : FILE)
    (s1 : State) (h : writeZippedFile os P append s = some (f, s1)) : OpenEffect s f s1 := by
  simp only [writeZippedFile] at h
  split at h
  · simp at h
  · exact openPipe_effect _ _ _ _ _ _ h

theorem writeFile_effect (os : OS) (P : CStr) (append : Int) (s : State) (f : FILE)
    (s1 : State) (h : svd_writeFile os P append s = some (f, s1)) : OpenEffect s f s1 := by
  unfold svd_writeFile at h
  split at h
  · simp only [Option.some.injEq, Prod.mk.injEq] at h
    obtain ⟨hf, hs⟩ := h
    subst hf hs
    exact .nothing (same_refl _) (Or.inr (Or.inr rfl))
  · split at h
    · exact openPipe_effect _ _ _ _ _ _ h
    · split at h
      · exact writeZippedFile_effect _ _ _ _ _ _ h
      · split at h
        · simp only [Option.some.injEq] at h
          have e := fopen_effect os P "a".toList s
          rw [h] at e
          exact e
        · simp only [Option.some.injEq] at h
          have e := fopen_effect os P "w".toList s
          rw [h] at e
          exact e

theorem inv_init : RegistryInv State.init where
  cap := by decide
  mem := by
    intro f
    simp [State.init, spawnedOpen, live]
  inj := by
    intro i j hi
    simp [State.init] at hi
  nodup := by simp [State.init, spawnedOpen, live]
  disj := by simp [State.init, plainOpen, live]
  strm := by simp [State.init, spawnedOpen, plainOpen, live]

theorem inv_open {s s1 : State} {f : FILE} (hinv : RegistryInv s) (e : OpenEffect s f s1)
    (hf1 : f ∉ spawnedOpen s) (hf2 : f ∉ plainOpen s) : RegistryInv s1 := by
  cases e with
  | nothing hs _ =>
    obtain ⟨hP, hn, hl⟩ := hs
    exact {
      cap := by rw [hn]; exact hinv.cap
      mem := by
        intro g
        rw [hn, hP]
        simp only [spawnedOpen, hl]
        exact hinv.mem g
      inj := by rw [hn, hP]; exact hinv.inj
      nodup := by simp only [spawnedOpen, hl]; exact hinv.nodup
      disj := by simp only [spawnedOpen, plainOpen, hl]; exact hinv.disj
      strm := by simp only [spawnedOpen, plainOpen, hl]; exact hinv.strm }
  | spawn id hf hc hp hn hl =>
    have hfresh : ∀ i, i < s.numPipes → s.Pipe i ≠ f := by
      intro i hi hcontra
      exact hf1 ((hinv.mem f).1 ⟨i, hi, hcontra⟩)
    exact {
      cap := by rw [hn]; omega
      mem := by
        intro g
        simp only [spawnedOpen, hl, List.mem_cons, hn, hp]
        constructor
        · rintro ⟨i, hi, hg⟩
          by_cases hin : i = s.numPipes
          · subst hin
            simp only [Function.update_same] at hg
            exact Or.inl hg.symm
          · rw [Function.update_noteq hin] at hg
            exact Or.inr ((hinv.mem g).1 ⟨i, by omega, hg⟩)
        · rintro (hg | hg)
          · exact ⟨s.numPipes, by omega, by rw [hg]; simp⟩
          · obtain ⟨i, hi, hgi⟩ := (hinv.mem g).2 hg
            exact ⟨i, by omega, by rw [Function.update_noteq (by omega)]; exact hgi⟩
      inj := by
        intro i j hi hj hij
        rw [hn] at hi hj
        rw [hp] at hij
        by_cases hin : i = s.numPipes <;> by_cases hjn : j = s.numPipes
        · omega
        · subst hin
          rw [Function.update_same, Function.update_noteq hjn] at hij
          exact absurd hij.symm (hfresh j (by omega))
        · subst hjn
          rw [Function.update_same, Function.update_noteq hin] at hij
          exact absurd hij (hfresh i (by omega))
        · rw [Function.update_noteq hin, Function.update_noteq hjn] at hij
          exact hinv.inj i j (by omega) (by omega) hij
      nodup := by
        simp only [spawnedOpen, hl]
        exact List.nodup_cons.2 ⟨hf1, hinv.nodup⟩
      disj := by
        intro g hg
        simp only [plainOpen, hl] at hg
        simp only [spawnedOpen, hl, List.mem_cons, not_or]
        refine ⟨?_, hinv.disj g hg⟩
        intro hgf
        rw [hgf] at hg
        exact hf2 hg
      strm := by
        intro g hg
        simp only [spawnedOpen, plainOpen, hl, List.mem_cons] at hg
        rcases hg with (hg | hg) | hg
        · exact ⟨id, hg.trans hf⟩
        · exact hinv.strm g (Or.inl hg)
        · exact hinv.strm g (Or.inr hg) }
  | direct id hf hp hn hl =>
    exact {
      cap := by rw [hn]; exact hinv.cap
      mem := by
        intro g
        rw [hn, hp]
        simp only [spawnedOpen, hl]
        exact hinv.mem g
      inj := by rw [hn, hp]; exact hinv.inj
      nodup := by simp only [spawnedOpen, hl]; exact hinv.nodup
      disj := by
        intro g hg
        simp only [plainOpen, hl, List.mem_cons] at hg
        simp only [spawnedOpen, hl]
        rcases hg with hg | hg
        · rw [hg]; exact hf1
        · exact hinv.disj g hg
      strm := by
        intro g hg
        simp only [spawnedOpen, plainOpen, hl, List.mem_cons] at hg
        rcases hg with hg | hg | hg
        · exact hinv.strm g (Or.inl hg)
        · exact ⟨id, hg.trans hf⟩
        · exact hinv.strm g (Or.inr hg) }

theorem mem_spawned_close (l : List Event) (f g : FILE) (e : Event)
    (he : e = Event.pclose f ∨ e = Event.fclose f) :
    (g ∈ (liveStep (live l) e).1 ↔ g ∈ (live l).1 ∧ g ≠ f) ∧
    (g ∈ (liveStep (live l) e).2 ↔ g ∈ (live l).2 ∧ g ≠ f) := by
  rcases he with he | he <;> subst he <;> simp [liveStep, List.mem_filter]

theorem close_std (f : FILE) (s : State) (h : f = FILE.stdin ∨ f = FILE.stdout) :
    svd_closeFile f s = s := by
  simp only [svd_closeFile, if_pos h]

theorem close_spawned {s : State} (hinv : RegistryInv s) (f : FILE) (hf : f ∈ spawnedOpen s) :
    ∃ i, i < s.numPipes ∧ s.Pipe i = f ∧
      svd_closeFile f s = ⟨Function.update s.Pipe i (s.Pipe (s.numPipes - 1)),
        s.numPipes - 1, s.log ++ [Event.pclose f]⟩ := by
  obtain ⟨id, hid⟩ := hinv.strm f (Or.inl hf)
  obtain ⟨k, hk, hpk⟩ := (hinv.mem f).2 hf
  obtain ⟨i, hi, hpi, his⟩ := isPipe_present f s k hk hpk
  refine ⟨i, hi, hpi, ?_⟩
  have hstd : ¬ (f = FILE.stdin ∨ f = FILE.stdout) := by rw [hid]; simp
  simp only [svd_closeFile, if_neg hstd, his, State.emit]

theorem close_unregistered {s : State} (hinv : RegistryInv s) (f : FILE)
    (hstd : ¬ (f = FILE.stdin ∨ f = FILE.stdout)) (hf : f ∉ spawnedOpen s) :
    svd_closeFile f s = ⟨s.Pipe, s.numPipes, s.log ++ [Event.fclose f]⟩ := by
  have habs : isPipe f s = (FALSE, s) :=
    isPipe_absent f s (fun k hk hc => hf ((hinv.mem f).1 ⟨k, hk, hc⟩))
  simp only [svd_closeFile, if_neg hstd, habs, State.emit]

theorem inv_close {s : State} (hinv : RegistryInv s) (f : FILE) :
    RegistryInv (svd_closeFile f s) := by
  by_cases hstd : f = FILE.stdin ∨ f = FILE.stdout
  · rw [close_std f s hstd]; exact hinv
  by_cases hf : f ∈ spawnedOpen s
  · obtain ⟨i, hi, hpi, hcl⟩ := close_spawned hinv f hf
    rw [hcl]
    have hlive : ∀ g, (g ∈ spawnedOpen ⟨Function.update s.Pipe i (s.Pipe (s.numPipes - 1)),
          s.numPipes - 1, s.log ++ [Event.pclose f]⟩ ↔ g ∈ spawnedOpen s ∧ g ≠ f) ∧
        (g ∈ plainOpen ⟨Function.update s.Pipe i (s.Pipe (s.numPipes - 1)),
          s.numPipes - 1, s.log ++ [Event.pclose f]⟩ ↔ g ∈ plainOpen s ∧ g ≠ f) := by
      intro g
      have := mem_spawned_close s.log f g (Event.pclose f) (Or.inl rfl)
      have e := live_emit s (Event.pclose f)
      simp only [State.emit] at e
      simp only [spawnedOpen, plainOpen, e]
      exact this
    exact {
      cap := by have := hinv.cap; show s.numPipes - 1 ≤ MAX_PIPES; omega
      mem := by
        intro g
        rw [(hlive g).1]
        show (∃ k, k < s.numPipes - 1 ∧
          Function.update s.Pipe i (s.Pipe (s.numPipes - 1)) k = g) ↔ _
        constructor
        · rintro ⟨k, hk, hg⟩
          by_cases hki : k = i
          · subst hki
            rw [Function.update_same] at hg
            refine ⟨(hinv.mem g).1 ⟨s.numPipes - 1, by omega, hg⟩, ?_⟩
            intro hgf
            have := hinv.inj (s.numPipes - 1) k (by omega) (by omega)
              (by rw [hg, hpi, hgf])
            omega
          · rw [Function.update_noteq hki] at hg
            refine ⟨(hinv.mem g).1 ⟨k, by omega, hg⟩, ?_⟩
            intro hgf
            have := hinv.inj k i (by omega) hi (by rw [hg, hpi, hgf])
            exact hki this
        · rintro ⟨hg, hgf⟩
          obtain ⟨k, hk, hpk⟩ := (hinv.mem g).2 hg
          have hki : k ≠ i := by
            intro h; rw [h, hpi] at hpk; exact hgf hpk.symm
          by_cases hlast : k = s.numPipes - 1
          · refine ⟨i, by omega, ?_⟩
            rw [Function.update_same, ← hlast]; exact hpk
          · exact ⟨k, by omega, by rw [Function.update_noteq hki]; exact hpk⟩
      inj := by
        intro a b ha hb hab
        simp only at ha hb hab
        by_cases hai : a = i <;> by_cases hbi : b = i
        · omega
        · subst hai
          rw [Function.update_same, Function.update_noteq hbi] at hab
          have := hinv.inj (s.numPipes - 1) b (by omega) (by omega) hab
          omega
        · subst hbi
          rw [Function.update_same, Function.update_noteq hai] at hab
          have := hinv.inj a (s.numPipes - 1) (by omega) (by omega) hab
          omega
        · rw [Function.update_noteq hai, Function.update_noteq hbi] at hab
          exact hinv.inj a b (by omega) (by omega) hab
      nodup := by
        have e := live_emit s (Event.pclose f)
        simp only [State.emit] at e
        simp only [spawnedOpen, e, liveStep]
        exact hinv.nodup.filter _
      disj := by
        intro g hg
        rw [(hlive g).2] at hg
        rw [(hlive g).1]
        exact fun h => hinv.disj g hg.1 h.1
      strm := by
        intro g hg
        rw [(hlive g).1, (hlive g).2] at hg
        rcases hg with hg | hg
        · exact hinv.strm g (Or.inl hg.1)
        · exact hinv.strm g (Or.inr hg.1) }
  · rw [close_unregistered hinv f hstd hf]
    have hlive : ∀ g, (g ∈ spawnedOpen ⟨s.Pipe, s.numPipes, s.log ++ [Event.fclose f]⟩ ↔
          g ∈ spawnedOpen s) ∧
        (g ∈ plainOpen ⟨s.Pipe, s.numPipes, s.log ++ [Event.fclose f]⟩ ↔
          g ∈ plainOpen s ∧ g ≠ f) := by
      intro g
      have := mem_spawned_close s.log f g (Event.fclose f) (Or.inr rfl)
      have e := live_emit s (Event.fclose f)
      simp only [State.emit] at e
      simp only [spawnedOpen, plainOpen, e]
      refine ⟨?_, this.2⟩
      rw [this.1]
      constructor
      · exact fun h => h.1
      · intro h
        refine ⟨h, ?_⟩
        intro hgf
        rw [hgf] at h
        exact hf h
    exact {
      cap := hinv.cap
      mem := by
        intro g
        rw [(hlive g).1]
        exact hinv.mem g
      inj := hinv.inj
      nodup := by
        have e := live_emit s (Event.fclose f)
        simp only [State.emit] at e
        simp only [spawnedOpen, e, liveStep]
        exact hinv.nodup.filter _
      disj := by
        intro g hg
        rw [(hlive g).2] at hg
        rw [(hlive g).1]
        exact hinv.disj g hg.1
      strm := by
        intro g hg
        rw [(hlive g).1, (hlive g).2] at hg
        rcases hg with hg | hg
        · exact hinv.strm g (Or.inl hg)
        · exact hinv.strm g (Or.inr hg.1) }

theorem reachable_inv {s : State} (h : Reachable s) : RegistryInv s := by
  induction h with
  | init => exact inv_init
  | read s os fileName f s1 _ hr hf1 hf2 ih =>
    exact inv_open ih (readFile_effect _ _ _ _ _ hr) hf1 hf2
  | write s os fileName append f s1 _ hr hf1 hf2 ih =>
    exact inv_open ih (writeFile_effect _ _ _ _ _ _ hr) hf1 hf2
  | close s file _ ih => exact inv_close ih file

theorem mem_registered (s : State) (f : FILE) :
    f ∈ registered s ↔ ∃ i, i < s.numPipes ∧ s.Pipe i = f := by
  simp only [registered, List.mem_map, List.mem_range]

theorem nodup_registered {s : State} (hinv : RegistryInv s) : (registered s).Nodup := by
  unfold registered
  refine List.Nodup.map_on ?_ (List.nodup_range _)
  intro i hi j hj hij
  exact hinv.inj i j (List.mem_range.1 hi) (List.mem_range.1 hj) hij

/-- C9: in every state reachable from the empty registry by calls of
`svd_readFile`, `svd_writeFile` and `svd_closeFile` in which an open never
returns a handle that is still open, the registry `Pipe[0..numPipes-1]`
contains a handle if and only if it was produced by a spawn and has not yet
been closed, each such handle exactly once, and at most `MAX_PIPES` of them;
`svd_closeFile` on such a handle calls `pclose` and takes it out of the
registry, and `svd_closeFile` on a handle from a direct `fopen` calls
`fclose` and leaves the registry as it is. -/
theorem registry_tracks_spawned (s : State) (h : Reachable s) :
    (∀ f, f ∈ registered s ↔ f ∈ spawnedOpen s) ∧
    (registered s).Nodup ∧ (spawnedOpen s).Nodup ∧
    s.numPipes = (spawnedOpen s).length ∧ s.numPipes ≤ MAX_PIPES ∧
    (∀ f, f ∈ spawnedOpen s →
      (svd_closeFile f s).log = s.log ++ [Event.pclose f] ∧
      f ∉ registered (svd_closeFile f s) ∧ f ∉ spawnedOpen (svd_closeFile f s)) ∧
    (∀ f, f ∈ plainOpen s →
      (svd_closeFile f s).log = s.log ++ [Event.fclose f] ∧
      (svd_closeFile f s).Pipe = s.Pipe ∧ (svd_closeFile f s).numPipes = s.numPipes) := by
  have hinv := reachable_inv h
  have hmem : ∀ f, f ∈ registered s ↔ f ∈ spawnedOpen s := by
    intro f; rw [mem_registered]; exact hinv.mem f
  have hnd := nodup_registered hinv
  refine ⟨hmem, hnd, hinv.nodup, ?_, hinv.cap, ?_, ?_⟩
  · have hp : (registered s).Perm (spawnedOpen s) :=
      (List.perm_ext_iff_of_nodup hnd hinv.nodup).2 hmem
    have := hp.length_eq
    simpa [registered] using this
  · intro f hf
    have hinv2 := inv_close hinv f
    obtain ⟨i, hi, hpi, hcl⟩ := close_spawned hinv f hf
    have hnot : f ∉ spawnedOpen (svd_closeFile f s) := by
      rw [hcl]
      have e := live_emit s (Event.pclose f)
      simp only [State.emit] at e
      simp only [spawnedOpen, e]
      rw [(mem_spawned_close s.log f f (Event.pclose f) (Or.inl rfl)).1]
      exact fun h => h.2 rfl
    refine ⟨by rw [hcl], ?_, hnot⟩
    rw [mem_registered]
    exact fun hc => hnot ((hinv2.mem f).1 hc)
  · intro f hf
    obtain ⟨id, hid⟩ := hinv.strm f (Or.inr hf)
    have hstd : ¬ (f = FILE.stdin ∨ f = FILE.stdout) := by rw [hid]; simp
    rw [close_unregistered hinv f hstd (hinv.disj f hf)]
    exact ⟨rfl, rfl, rfl⟩

/-- Witness for C9: the state reached by spawning stream 1 with
`svd_readFile("|cat")` and then opening the existing file `f` as stream 2. -/
theorem registry_tracks_spawned_witness :
    Reachable afterSpawnAndOpen ∧
    (∀ f, f ∈ registered afterSpawnAndOpen ↔ f ∈ spawnedOpen afterSpawnAndOpen) ∧
    (registered afterSpawnAndOpen).Nodup ∧ (spawnedOpen afterSpawnAndOpen).Nodup ∧
    afterSpawnAndOpen.numPipes = (spawnedOpen afterSpawnAndOpen).length ∧
    afterSpawnAndOpen.numPipes ≤ MAX_PIPES ∧
    (∀ f, f ∈ spawnedOpen afterSpawnAndOpen →
      (svd_closeFile f afterSpawnAndOpen).log = afterSpawnAndOpen.log ++ [Event.pclose f] ∧
      f ∉ registered (svd_closeFile f afterSpawnAndOpen) ∧
      f ∉ spawnedOpen (svd_closeFile f afterSpawnAndOpen)) ∧
    (∀ f, f ∈ plainOpen afterSpawnAndOpen →
      (svd_closeFile f afterSpawnAndOpen).log = afterSpawnAndOpen.log ++ [Event.fclose f] ∧
      (svd_closeFile f afterSpawnAndOpen).Pipe = afterSpawnAndOpen.Pipe ∧
      (svd_closeFile f afterSpawnAndOpen).numPipes = afterSpawnAndOpen.numPipes) :=
  have hr : Reachable afterSpawnAndOpen :=
    Reachable.read afterSpawn (osOnly "f".toList) "f".toList (FILE.stream 2) afterSpawnAndOpen
      (Reachable.read State.init (osOnly "f".toList) "|cat".toList (FILE.stream 1) afterSpawn
        Reachable.init rfl (by decide) (by decide))
      rfl (by decide) (by decide)
  ⟨hr, registry_tracks_spawned afterSpawnAndOpen hr⟩

/-- C10, the code at a full registry: with `numPipes = MAX_PIPES = 64`,
`registerPipe` reports the error and then still executes
`Pipe[numPipes++] = p`, a store at index 64 beyond the last cell of the
array; it does not return the registry unchanged apart from the report. -/
theorem registerPipe_full_overruns :
    fullRegistry.numPipes = MAX_PIPES ∧
    registerPipe (FILE.stream 64) fullRegistry = none ∧
    registerPipe (FILE.stream 64) fullRegistry ≠
      some (svd_error "Too many pipes open".toList fullRegistry) := by
  have h : registerPipe (FILE.stream 64) fullRegistry = none :=
    registerPipe_full _ _ (by decide)
  refine ⟨rfl, h, ?_⟩
  rw [h]
  exact fun hc => Option.noConfusion hc

set_option maxRecDepth 100000 in
/-- C11, the code at the failing input: with 64 handles registered, a 65th
spawn through `openPipe` runs `registerPipe` at a full registry, whose store
`Pipe[64] = p` lies beyond the array, so the open has no defined result; and
in the state that store produces in the memory after the array
(`numPipes = 65`, the handle in cell 64) `isPipe` finds the handle and
returns `TRUE`, so that `svd_closeFile` calls `pclose`, not `fclose`. -/
theorem openPipe_full_then_close :
    fullRegistry.numPipes = MAX_PIPES ∧
    openPipe osSpawn64 "cat".toList "r".toList fullRegistry = none ∧
    (isPipe (FILE.stream 64) overfullRegistry).1 = TRUE ∧
    (svd_closeFile (FILE.stream 64) overfullRegistry).log =
      overfullRegistry.log ++ [Event.pclose (FILE.stream 64)] := by
  refine ⟨rfl, ?_, by decide, by decide⟩
  rw [openPipe_eq]
  show Option.map _ (registerPipe (FILE.stream 64) _) = none
  rw [registerPipe_full _ _ (by decide)]
  rfl

/-- C12: for every registry state and every append flag, `svd_readFile("-")`
returns `stdin` and `svd_writeFile("-", append)` returns `stdout` with the
state (registry and log of outside calls) unchanged, so nothing is spawned,
opened or registered; `svd_closeFile` on `stdin` or `stdout` leaves the state
unchanged as well: neither `fclose` nor `pclose` is called. -/
theorem dash_is_standard_stream (os : OS) (append : Int) (s : State) :
    svd_readFile os "-".toList s = some (FILE.stdin, s) ∧
    svd_writeFile os "-".toList append s = some (FILE.stdout, s) ∧
    svd_closeFile FILE.stdin s = s ∧ svd_closeFile FILE.stdout s = s := by
  refine ⟨?_, ?_, close_std _ s (Or.inl rfl), close_std _ s (Or.inr rfl)⟩
  · simp only [svd_readFile, if_true]
  · simp only [svd_writeFile, if_true]

/-- C13, as amended: for every path `P` that is not "-", does not start with
a bar and does not end in `.gz`, `.Z`, `.bz` or `.bz2`, `svd_writeFile`
opens the literal file `P` directly, with `fopen` mode `a` when `append` is
non-zero and `w` otherwise; that `fopen` is the only outside call, no
process is spawned and the registry is unchanged. -/
theorem writeFile_plain_opens_directly (os : OS) (P : CStr) (append : Int) (s : State)
    (hdash : P ≠ "-".toList) (hbar : P.head? ≠ some '|')
    (hgz : stringEndsIn P ".gz".toList = false) (hZ : stringEndsIn P ".Z".toList = false)
    (hbz : stringEndsIn P ".bz".toList = false) (hbz2 : stringEndsIn P ".bz2".toList = false) :
    (append ≠ 0 →
      svd_writeFile os P append s =
        some (FILE.ofAnswer (os.fopen P "a".toList),
          ⟨s.Pipe, s.numPipes,
            s.log ++ [Event.fopen P "a".toList (FILE.ofAnswer (os.fopen P "a".toList))]⟩)) ∧
    (append = 0 →
      svd_writeFile os P append s =
        some (FILE.ofAnswer (os.fopen P "w".toList),
          ⟨s.Pipe, s.numPipes,
            s.log ++ [Event.fopen P "w".toList (FILE.ofAnswer (os.fopen P "w".toList))]⟩)) := by
  constructor
  · intro ha
    simp only [svd_writeFile, if_neg hdash, if_neg hbar, hgz, hZ, hbz, hbz2, Bool.or_self,
      Bool.false_eq_true, if_false, ne_eq, ha, not_false_eq_true, if_true, fopen, State.emit]
  · intro ha
    simp only [svd_writeFile, if_neg hdash, if_neg hbar, hgz, hZ, hbz, hbz2, Bool.or_self,
      Bool.false_eq_true, if_false, ne_eq, ha, not_true_eq_false, fopen, State.emit]

/-- Witness for C13: appending to `out.txt`. -/
theorem writeFile_plain_opens_directly_witness :
    ("out.txt".toList ≠ "-".toList ∧ "out.txt".toList.head? ≠ some '|' ∧
      stringEndsIn "out.txt".toList ".gz".toList = false ∧
      stringEndsIn "out.txt".toList ".Z".toList = false ∧
      stringEndsIn "out.txt".toList ".bz".toList = false ∧
      stringEndsIn "out.txt".toList ".bz2".toList = false ∧ (3 : Int) ≠ 0) ∧
    svd_writeFile (osOnly []) "out.txt".toList 3 State.init =
      some (FILE.ofAnswer ((osOnly []).fopen "out.txt".toList "a".toList),
        ⟨State.init.Pipe, State.init.numPipes,
          State.init.log ++ [Event.fopen "out.txt".toList "a".toList
            (FILE.ofAnswer ((osOnly []).fopen "out.txt".toList "a".toList))]⟩) :=
  ⟨by decide,
    (writeFile_plain_opens_directly (osOnly []) "out.txt".toList 3 State.init (by decide)
      (by decide) (by decide) (by decide) (by decide) (by decide)).1 (by decide)⟩

/-- Counterexample to C13 as stated: `out.gz` ends in none of `.bz`, `.bz2`,
`.Z`, yet `svd_writeFile("out.gz", 0)` does not open the file directly: it
spawns `gzip -1 > "out.gz"` and registers the handle. -/
theorem writeFile_gz_is_spawned :
    ¬ (∀ (os : OS) (P : CStr) (s : State), P ≠ "-".toList → P.head? ≠ some '|' →
        stringEndsIn P ".Z".toList = false → stringEndsIn P ".bz".toList = false →
        stringEndsIn P ".bz2".toList = false →
        svd_writeFile os P 0 s =
          some (FILE.ofAnswer (os.fopen P "w".toList),
            ⟨s.Pipe, s.numPipes,
              s.log ++ [Event.fopen P "w".toList (FILE.ofAnswer (os.fopen P "w".toList))]⟩)) := by
  intro H
  have h := H (osOnly []) "out.gz".toList State.init (by decide) (by decide) (by decide)
    (by decide) (by decide)
  have e : svd_writeFile (osOnly []) "out.gz".toList 0 State.init =
      some (FILE.stream 1, ⟨Function.update State.init.Pipe 0 (FILE.stream 1), 1,
        [Event.fflush_stdout,
          Event.popen ("gzip -1 > ".toList ++ ['"'] ++ "out.gz".toList ++ ['"']) "w".toList
            (FILE.stream 1)]⟩) := rfl
  rw [e] at h
  have h1 := congrArg (fun r => r.map (fun x => x.1)) h
  exact absurd h1 (by decide)

theorem writeCommand_length (command op P : CStr) :
    (writeCommand command op P).length = command.length + op.length + P.length + 4 := by
  simp only [writeCommand, List.length_append, List.length_cons, List.length_nil]
  omega

theorem writeFile_bz_eq (os : OS) (P : CStr) (append : Int) (s : State)
    (hlen : P.length ≤ 497) (hdash : P ≠ "-".toList) (hbar : P.head? ≠ some '|')
    (hs : (stringEndsIn P ".bz".toList || stringEndsIn P ".bz2".toList) = true) :
    svd_writeFile os P append s =
      openPipe os
        (writeCommand BZIP2 (if append ≠ 0 then ">>".toList else ">".toList) P)
        "w".toList s := by
  have h4 : (stringEndsIn P ".gz".toList || stringEndsIn P ".Z".toList ||
      stringEndsIn P ".bz".toList || stringEndsIn P ".bz2".toList) = true := by
    simp only [Bool.or_eq_true] at hs ⊢
    rcases hs with h | h
    · exact Or.inl (Or.inr h)
    · exact Or.inr h
  have h2 : (stringEndsIn P ".bz2".toList || stringEndsIn P ".bz".toList) = true := by
    rw [Bool.or_comm]; exact hs
  have hop : (if append ≠ 0 then ">>".toList else ">".toList : CStr).length ≤ 2 := by
    split <;> decide
  have hb : BZIP2.length = 8 := by decide
  simp only [svd_writeFile, if_neg hdash, if_neg hbar, h4, if_true, writeZippedFile, h2]
  rw [sprintf_fits _ (by rw [writeCommand_length]; omega)]

theorem writeFile_Z_eq (os : OS) (P : CStr) (append : Int) (s : State)
    (hlen : P.length ≤ 497) (hdash : P ≠ "-".toList) (hbar : P.head? ≠ some '|')
    (hbz : (stringEndsIn P ".bz".toList || stringEndsIn P ".bz2".toList) = false)
    (hZ : stringEndsIn P ".Z".toList = true) :
    svd_writeFile os P append s =
      openPipe os
        (writeCommand COMPRESS (if append ≠ 0 then ">>".toList else ">".toList) P)
        "w".toList s := by
  have h4 : (stringEndsIn P ".gz".toList || stringEndsIn P ".Z".toList ||
      stringEndsIn P ".bz".toList || stringEndsIn P ".bz2".toList) = true := by
    simp only [Bool.or_eq_true]
    exact Or.inl (Or.inl (Or.inr hZ))
  have h2 : (stringEndsIn P ".bz2".toList || stringEndsIn P ".bz".toList) = false := by
    rw [Bool.or_comm]; exact hbz
  have hop : (if append ≠ 0 then ">>".toList else ">".toList : CStr).length ≤ 2 := by
    split <;> decide
  have hb : COMPRESS.length = 8 := by decide
  simp only [svd_writeFile, if_neg hdash, if_neg hbar, h4, if_true]
  simp only [writeZippedFile, h2, hZ, Bool.false_eq_true, if_false, if_true]
  rw [sprintf_fits _ (by rw [writeCommand_length]; omega)]

/-- C14, as amended: for every path `P` of at most 497 characters that is
not "-" and does not start with a bar: if `P` ends in `.bz` or `.bz2`,
`svd_writeFile(P, append)` spawns (through `openPipe`, mode `w`, which
registers the handle) exactly the command `bzip2 -1 >> "P"` when `append` is
non-zero and `bzip2 -1 > "P"` otherwise; if `P` ends in `.Z` it spawns
`compress >> "P"`, respectively `compress > "P"`. -/
theorem writeFile_compressor_command (os : OS) (P : CStr) (append : Int) (s : State)
    (hlen : P.length ≤ 497) (hdash : P ≠ "-".toList) (hbar : P.head? ≠ some '|') :
    ((stringEndsIn P ".bz".toList || stringEndsIn P ".bz2".toList) = true →
      (append ≠ 0 →
        svd_writeFile os P append s =
          openPipe os ("bzip2 -1 >> ".toList ++ ['"'] ++ P ++ ['"']) "w".toList s) ∧
      (append = 0 →
        svd_writeFile os P append s =
          openPipe os ("bzip2 -1 > ".toList ++ ['"'] ++ P ++ ['"']) "w".toList s)) ∧
    (stringEndsIn P ".Z".toList = true →
      (append ≠ 0 →
        svd_writeFile os P append s =
          openPipe os ("compress >> ".toList ++ ['"'] ++ P ++ ['"']) "w".toList s) ∧
      (append = 0 →
        svd_writeFile os P append s =
          openPipe os ("compress > ".toList ++ ['"'] ++ P ++ ['"']) "w".toList s)) := by
  constructor
  · intro hs
    rw [writeFile_bz_eq os P append s hlen hdash hbar hs]
    constructor
    · intro ha; rw [if_pos ha]; simp [writeCommand, BZIP2]
    · intro ha; rw [if_neg (by simp [ha])]; simp [writeCommand, BZIP2]
  · intro hZ
    have hbz : (stringEndsIn P ".bz".toList || stringEndsIn P ".bz2".toList) = false := by
      have hz := hZ
      simp only [stringEndsIn] at hz ⊢
      split at hz
      · simp at hz
      · rename_i hl
        split at hz
        · rename_i hd
          have hl2 : 2 ≤ P.length := by
            have : ".Z".toList.length = 2 := by decide
            omega
          have hlast : P.getLast? = some 'Z' := by
            have e : P = P.take (P.length - 2) ++ ".Z".toList := by
              have hd' := hd
              have e2 : ".Z".toList.length = 2 := by decide
              rw [e2] at hd'
              rw [← hd']
              exact (List.take_append_drop _ _).symm
            rw [e]
            simp
          have nobz : ∀ t : CStr, t.getLast? ≠ some 'Z' → t ≠ [] →
              ¬ P.drop (P.length - t.length) = t := by
            intro t ht hne hdt
            have e : P = P.take (P.length - t.length) ++ t := by
              conv_lhs => rw [← List.take_append_drop (P.length - t.length) P]
              rw [hdt]
            rw [e, List.getLast?_append_of_ne_nil _ hne] at hlast
            exact ht hlast
          have n1 := nobz ".bz".toList (by decide) (by decide)
          have n2 := nobz ".bz2".toList (by decide) (by decide)
          simp only [n1, n2, if_false]
          split <;> split <;> rfl
        · simp at hz
    rw [writeFile_Z_eq os P append s hlen hdash hbar hbz hZ]
    constructor
    · intro ha; rw [if_pos ha]; simp [writeCommand, COMPRESS]
    · intro ha; rw [if_neg (by simp [ha])]; simp [writeCommand, COMPRESS]

/-- Witness for C14: appending to `out.bz2`. -/
theorem writeFile_compressor_command_witness :
    ("out.bz2".toList.length ≤ 497 ∧ "out.bz2".toList ≠ "-".toList ∧
      "out.bz2".toList.head? ≠ some '|' ∧
      (stringEndsIn "out.bz2".toList ".bz".toList ||
        stringEndsIn "out.bz2".toList ".bz2".toList) = true ∧ (1 : Int) ≠ 0) ∧
    svd_writeFile (osOnly []) "out.bz2".toList 1 State.init =
      openPipe (osOnly []) ("bzip2 -1 >> ".toList ++ ['"'] ++ "out.bz2".toList ++ ['"'])
        "w".toList State.init :=
  ⟨by decide,
    ((writeFile_compressor_command (osOnly []) "out.bz2".toList 1 State.init (by decide)
      (by decide) (by decide)).1 (by decide)).1 (by decide)⟩

theorem longBz2Path_length : longBz2Path.length = 604 := by
  rw [longBz2Path, List.length_append, longPath_length]
  rfl

set_option maxRecDepth 100000 in
theorem longBz2Path_suffix :
    longBz2Path ≠ "-".toList ∧ longBz2Path.head? ≠ some '|' ∧
    stringEndsIn longBz2Path ".bz2".toList = true ∧
    stringEndsIn longBz2Path ".bz".toList = false ∧
    stringEndsIn longBz2Path ".gz".toList = false ∧
    stringEndsIn longBz2Path ".Z".toList = false := by
  decide

/-- Counterexample to C14 as stated (for every path): for the 604-character
name `longBz2Path`, which ends in `.bz2`, formatting the command
`bzip2 -1 > "P"` overruns the 512-byte buffer, so `svd_writeFile` does not
spawn it. -/
theorem writeFile_compressor_long_path_fails :
    ¬ (∀ (os : OS) (P : CStr) (s : State), P ≠ "-".toList → P.head? ≠ some '|' →
        (stringEndsIn P ".bz".toList || stringEndsIn P ".bz2".toList) = true →
        svd_writeFile os P 0 s =
          openPipe os ("bzip2 -1 > ".toList ++ ['"'] ++ P ++ ['"']) "w".toList s) := by
  intro H
  obtain ⟨h1, h2, h3, h4, h5, h6⟩ := longBz2Path_suffix
  have e := H (osOnly []) longBz2Path State.init h1 h2 (by rw [h3, h4]; rfl)
  have hnone : svd_writeFile (osOnly []) longBz2Path 0 State.init = none := by
    have hc : (stringEndsIn longBz2Path ".gz".toList || stringEndsIn longBz2Path ".Z".toList ||
        stringEndsIn longBz2Path ".bz".toList || stringEndsIn longBz2Path ".bz2".toList) =
        true := by rw [h5, h6, h4, h3]; rfl
    have hc2 : (stringEndsIn longBz2Path ".bz2".toList ||
        stringEndsIn longBz2Path ".bz".toList) = true := by rw [h3, h4]; rfl
    unfold svd_writeFile
    rw [if_neg h1, if_neg h2, if_pos hc]
    unfold writeZippedFile
    simp only [hc2, if_true]
    rw [sprintf_overrun _ (by rw [writeCommand_length, longBz2Path_length]; omega)]
  have hs := openPipe_init_some (osOnly [])
    ("bzip2 -1 > ".toList ++ ['"'] ++ longBz2Path ++ ['"']) "w".toList []
  rw [hnone] at e
  have e2 : State.init = ⟨fun _ => FILE.NULL, 0, []⟩ := rfl
  rw [e2] at e
  rw [← e] at hs
  exact absurd hs (by decide)

theorem allStat_nil : AllStat [] := by
  intro e he; simp at he

theorem allStat_snoc {pre : List Event} (h : AllStat pre) (p : CStr) :
    AllStat (pre ++ [Event.stat p]) := by
  intro e he
  rcases List.mem_append.1 he with h1 | h1
  · exact h e h1
  · simp only [List.mem_singleton] at h1
    exact ⟨p, h1⟩

theorem allStat_no_popen {pre : List Event} (h : AllStat pre) (cmd mode : CStr) (r : FILE) :
    Event.popen cmd mode r ∉ pre := by
  intro hm
  obtain ⟨p, hp⟩ := h _ hm
  exact Event.noConfusion hp

theorem outcome_not_found (os : OS) (s s1 : State) {pre : List Event} (hpre : AllStat pre)
    (hP : s1.Pipe = s.Pipe) (hn : s1.numPipes = s.numPipes) (hl : s1.log = s.log ++ pre) :
    ReadOutcome os s FILE.NULL s1 :=
  ⟨pre, hl, fun cmd mode r hm => absurd hm (allStat_no_popen hpre cmd mode r),
    fun _ => ⟨hP, hn, fun cmd mode r hm => absurd hm (allStat_no_popen hpre cmd mode r)⟩⟩

theorem outcome_fopen (os : OS) (s s0 : State) {pre : List Event} (hpre : AllStat pre)
    (hP : s0.Pipe = s.Pipe) (hn : s0.numPipes = s.numPipes) (hl : s0.log = s.log ++ pre)
    (path mode : CStr) :
    ReadOutcome os s (fopen os path mode s0).1 (fopen os path mode s0).2 := by
  have hno : ∀ cmd m r, Event.popen cmd m r ∉
      pre ++ [Event.fopen path mode (FILE.ofAnswer (os.fopen path mode))] := by
    intro cmd m r hm
    rcases List.mem_append.1 hm with h1 | h1
    · exact allStat_no_popen hpre cmd m r h1
    · simp at h1
  refine ⟨pre ++ [Event.fopen path mode (FILE.ofAnswer (os.fopen path mode))], ?_,
    fun cmd m r hm => absurd hm (hno cmd m r),
    fun _ => ⟨hP, hn, fun cmd m r hm => absurd hm (hno cmd m r)⟩⟩
  simp only [fopen, State.emit, hl, List.append_assoc]

theorem outcome_zipped (os : OS) (s s0 : State) {s1 : State} {f : FILE} {pre : List Event}
    (hpre : AllStat pre) (file dec : CStr) (hstat : os.stat file = true)
    (hP : s0.Pipe = s.Pipe) (hn : s0.numPipes = s.numPipes)
    (hl : s0.log = s.log ++ (pre ++ [Event.stat file]))
    (h : readZippedFile os dec file s0 = some (f, s1)) : ReadOutcome os s f s1 := by
  unfold readZippedFile at h
  split at h
  · simp at h
  · rename_i buf hbuf
    have hb : buf = dec ++ " < ".toList ++ file ++ " 2>/dev/null".toList := by
      unfold sprintf at hbuf
      split at hbuf
      · exact (Option.some.inj hbuf).symm
      · simp at hbuf
    have key : s1.log = s0.log ++ [Event.fflush_stdout, Event.popen buf "r".toList f] ∧
        (f = FILE.NULL → s1.Pipe = s0.Pipe ∧ s1.numPipes = s0.numPipes) := by
      rw [openPipe_eq] at h
      cases hp : os.popen buf "r".toList with
      | none =>
        rw [hp] at h
        simp only [Option.some.injEq, Prod.mk.injEq] at h
        obtain ⟨hf, hs⟩ := h
        subst hf hs
        exact ⟨by simp [State.emit], fun _ => ⟨rfl, rfl⟩⟩
      | some id =>
        rw [hp] at h
        simp only at h
        by_cases hcap : s0.numPipes < MAX_PIPES
        · rw [registerPipe_below _ ((s0.emit Event.fflush_stdout).emit _) hcap] at h
          simp only [Option.map_some', Option.some.injEq, Prod.mk.injEq] at h
          obtain ⟨hf, hs⟩ := h
          subst hf hs
          exact ⟨by simp [State.emit], fun hc => absurd hc (by simp)⟩
        · rw [registerPipe_full _ ((s0.emit Event.fflush_stdout).emit _)
            (by simp only [State.emit]; omega)] at h
          simp at h
    obtain ⟨hlog, hnull⟩ := key
    have hmem : ∀ cmd mode r, Event.popen cmd mode r ∈
        pre ++ [Event.stat file, Event.fflush_stdout, Event.popen buf "r".toList f] →
        cmd = buf ∧ mode = "r".toList ∧ r = f := by
      intro cmd mode r hm
      rcases List.mem_append.1 hm with h1 | h1
      · exact absurd h1 (allStat_no_popen hpre cmd mode r)
      · simp only [List.mem_cons, reduceCtorEq, Event.popen.injEq, List.mem_singleton,
          false_or, List.not_mem_nil, or_false] at h1
        exact h1
    refine ⟨pre ++ [Event.stat file, Event.fflush_stdout, Event.popen buf "r".toList f], ?_,
      ?_, ?_⟩
    · rw [hlog, hl]; simp
    · intro cmd mode r hm
      obtain ⟨h1, h2, h3⟩ := hmem cmd mode r hm
      subst h1 h2 h3
      exact ⟨pre, file, dec, rfl, hpre, hstat, hb⟩
    · intro hf
      obtain ⟨h1, h2⟩ := hnull hf
      refine ⟨h1.trans hP, h2.trans hn, ?_⟩
      intro cmd mode r hm
      rw [(hmem cmd mode r hm).2.2, hf]

theorem emit_log_after (s s0 : State) (pre : List Event) (e : Event)
    (hl : s0.log = s.log ++ pre) : (s0.emit e).log = s.log ++ (pre ++ [e]) := by
  simp only [State.emit, hl, List.append_assoc]

theorem probe_outcome (os : OS) (P : CStr) (s s0 : State) {s1 : State} {f : FILE}
    {pre : List Event}
    (hpre : AllStat pre) (hP : s0.Pipe = s.Pipe) (hn : s0.numPipes = s.numPipes)
    (hl : s0.log = s.log ++ pre) (h : svd_readFile_probe os P s0 = some (f, s1)) :
    ReadOutcome os s f s1 := by
  unfold svd_readFile_probe at h
  simp only [stat] at h
  split at h
  · simp at h
  · rename_i fb1 _
    have l1 := emit_log_after s s0 pre (Event.stat fb1) hl
    have a1 := allStat_snoc hpre fb1
    cases h1 : os.stat fb1 with
    | true =>
      rw [h1] at h
      exact outcome_zipped os s (s0.emit (Event.stat fb1)) hpre fb1 _ h1 hP hn l1 h
    | false =>
      rw [h1] at h
      simp only at h
      split at h
      · simp at h
      · rename_i fb2 _
        have l2 := emit_log_after s _ _ (Event.stat fb2) l1
        have a2 := allStat_snoc a1 fb2
        cases h2 : os.stat fb2 with
        | true =>
          rw [h2] at h
          exact outcome_zipped os s ((s0.emit (Event.stat fb1)).emit (Event.stat fb2)) a1 fb2 _
            h2 hP hn l2 h
        | false =>
          rw [h2] at h
          simp only at h
          split at h
          · simp at h
          · rename_i fb3 _
            have l3 := emit_log_after s _ _ (Event.stat fb3) l2
            have a3 := allStat_snoc a2 fb3
            cases h3 : os.stat fb3 with
            | true =>
              rw [h3] at h
              exact outcome_zipped os
                s (((s0.emit (Event.stat fb1)).emit (Event.stat fb2)).emit (Event.stat fb3))
                a2 fb3 _ h3 hP hn l3 h
            | false =>
              rw [h3] at h
              simp only at h
              split at h
              · simp at h
              · rename_i fb4 _
                have l4 := emit_log_after s _ _ (Event.stat fb4) l3
                have a4 := allStat_snoc a3 fb4
                cases h4 : os.stat fb4 with
                | true =>
                  rw [h4] at h
                  exact outcome_zipped os
                    s ((((s0.emit (Event.stat fb1)).emit (Event.stat fb2)).emit
                      (Event.stat fb3)).emit (Event.stat fb4))
                    a3 fb4 _ h4 hP hn l4 h
                | false =>
                  rw [h4] at h
                  simp only [Option.some.injEq, Prod.mk.injEq] at h
                  obtain ⟨hf, hs⟩ := h
                  subst hf hs
                  exact outcome_not_found os
                    s ((((s0.emit (Event.stat fb1)).emit (Event.stat fb2)).emit
                      (Event.stat fb3)).emit (Event.stat fb4))
                    a4 hP hn l4

theorem readFile_outcome (os : OS) (P : CStr) (s : State) (f : FILE) (s1 : State)
    (hbar : P.head? ≠ some '|') (h : svd_readFile os P s = some (f, s1)) :
    ReadOutcome os s f s1 := by
  have l0 : s.log = s.log ++ [] := (List.append_nil _).symm
  have l1 := emit_log_after s s [] (Event.stat P) l0
  have a1 : AllStat ([] ++ [Event.stat P]) := allStat_snoc allStat_nil P
  unfold svd_readFile at h
  simp only [stat] at h
  split at h
  · simp only [Option.some.injEq, Prod.mk.injEq] at h
    obtain ⟨hf, hs⟩ := h
    subst hf hs
    exact ⟨[], l0, fun cmd mode r hm => absurd hm (by simp),
      fun hc => absurd hc (by simp)⟩
  · split at h
    · cases hP : os.stat P with
      | true =>
        rw [hP] at h
        exact outcome_zipped os s (s.emit (Event.stat P)) allStat_nil P _ hP rfl rfl l1 h
      | false =>
        rw [hP] at h
        simp only [Option.some.injEq, Prod.mk.injEq] at h
        obtain ⟨hf, hs⟩ := h
        subst hf hs
        exact outcome_not_found os s (s.emit (Event.stat P)) a1 rfl rfl l1
    · split at h
      · cases hP : os.stat P with
        | true =>
          rw [hP] at h
          exact outcome_zipped os s (s.emit (Event.stat P)) allStat_nil P _ hP rfl rfl l1 h
        | false =>
          rw [hP] at h
          simp only [Option.some.injEq, Prod.mk.injEq] at h
          obtain ⟨hf, hs⟩ := h
          subst hf hs
          exact outcome_not_found os s (s.emit (Event.stat P)) a1 rfl rfl l1
      · cases hP : os.stat P with
        | true =>
          rw [hP] at h
          simp only [Option.some.injEq] at h
          have e := outcome_fopen os s (s.emit (Event.stat P)) a1 rfl rfl l1 P
            "r".toList
          rw [h] at e
          exact e
        | false =>
          rw [hP] at h
          exact probe_outcome os P s (s.emit (Event.stat P)) a1 rfl rfl l1 h

theorem spawn_form (os : OS) (P : CStr) (s s0 : State) (pre : List Event) (file dec : CStr)
    (hs0 : s0 = ⟨s.Pipe, s.numPipes, s.log ++ pre ++ [Event.stat file]⟩)
    (hpre : ∀ e ∈ pre, ∃ p, e = Event.stat p) (hstat : os.stat file = true)
    (hdec : dec = UNZIP ∨ dec = BUNZIP2)
    (h : svd_readFile os P s =
      openPipe os (dec ++ " < ".toList ++ file ++ " 2>/dev/null".toList) "r".toList s0) :
    ∃ pre file dec, (∀ e ∈ pre, ∃ p, e = Event.stat p) ∧ os.stat file = true ∧
      (dec = UNZIP ∨ dec = BUNZIP2) ∧
      svd_readFile os P s =
        openPipe os (dec ++ " < ".toList ++ file ++ " 2>/dev/null".toList) "r".toList
          ⟨s.Pipe, s.numPipes, s.log ++ pre ++ [Event.stat file]⟩ := by
  subst hs0
  exact ⟨pre, file, dec, hpre, hstat, hdec, h⟩

theorem not_found_form (os : OS) (P : CStr) (s s0 : State) (pre : List Event)
    (hs0 : s0 = ⟨s.Pipe, s.numPipes, s.log ++ pre⟩)
    (hpre : ∀ e ∈ pre, ∃ p, e = Event.stat p)
    (h : svd_readFile os P s = some (FILE.NULL, s0)) :
    ∃ pre, (∀ e ∈ pre, ∃ p, e = Event.stat p) ∧
      svd_readFile os P s = some (FILE.NULL, ⟨s.Pipe, s.numPipes, s.log ++ pre⟩) := by
  subst hs0
  exact ⟨pre, hpre, h⟩

theorem readFile_suffixed_eq (os : OS) (P : CStr) (s : State) (hlen : P.length ≤ 484)
    (hdash : P ≠ "-".toList) (hbar : P.head? ≠ some '|')
    (hs : (stringEndsIn P ".gz".toList || stringEndsIn P ".Z".toList) = true ∨
      (stringEndsIn P ".bz".toList || stringEndsIn P ".bz2".toList) = true) :
    ∃ dec : CStr, (dec = UNZIP ∨ dec = BUNZIP2) ∧ svd_readFile os P s =
      (if os.stat P = true then
        openPipe os (dec ++ " < ".toList ++ P ++ " 2>/dev/null".toList) "r".toList
          (s.emit (Event.stat P))
      else some (FILE.NULL, s.emit (Event.stat P))) := by
  have hu : UNZIP.length = 7 := by decide
  have hb : BUNZIP2.length = 8 := by decide
  by_cases hg : (stringEndsIn P ".gz".toList || stringEndsIn P ".Z".toList) = true
  · refine ⟨UNZIP, Or.inl rfl, ?_⟩
    simp only [svd_readFile, if_neg hdash, if_neg hbar, if_pos hg, stat]
    cases os.stat P with
    | true =>
      simp only [if_true]
      exact readZippedFile_fits os UNZIP P _ (by omega)
    | false => simp
  · have hbz : (stringEndsIn P ".bz".toList || stringEndsIn P ".bz2".toList) = true := by
      rcases hs with h | h
      · exact absurd h hg
      · exact h
    refine ⟨BUNZIP2, Or.inr rfl, ?_⟩
    simp only [svd_readFile, if_neg hdash, if_neg hbar, if_neg hg, if_pos hbz, stat]
    cases os.stat P with
    | true =>
      simp only [if_true]
      exact readZippedFile_fits os BUNZIP2 P _ (by omega)
    | false => simp

theorem perm_map_range {γ : Type} (n : Nat) (σ : Equiv.Perm Nat) (hσ : ∀ k, n ≤ k → σ k = k)
    (f : Nat → γ) : ((List.range n).map (f ∘ σ)).Perm ((List.range n).map f) := by
  have hp : ((List.range n).map σ).Perm (List.range n) := by
    refine (List.perm_ext_iff_of_nodup ((List.nodup_range n).map σ.injective)
      (List.nodup_range n)).2 ?_
    intro x
    simp only [List.mem_map, List.mem_range]
    constructor
    · rintro ⟨k, hk, hx⟩
      by_contra hge
      have hfix := hσ x (by omega)
      have : k = x := σ.injective (hx.trans hfix.symm)
      omega
    · intro hx
      refine ⟨σ.symm x, ?_, by simp⟩
      by_contra hge
      have hfix := hσ (σ.symm x) (by omega)
      simp only [Equiv.apply_symm_apply] at hfix
      omega
  have := hp.map f
  simpa only [List.map_map] using this

theorem swap_fix {n i j : Nat} (hi : i < n) (hj : j < n) (k : Nat) (hk : n ≤ k) :
    Equiv.swap i j k = k :=
  Equiv.swap_apply_of_ne_of_ne (by omega) (by omega)

theorem registered_remove (s : State) (i : Nat) (hi : i < s.numPipes) :
    (registered s).Perm
      (s.Pipe i :: registered ⟨Function.update s.Pipe i (s.Pipe (s.numPipes - 1)),
        s.numPipes - 1, s.log⟩) := by
  obtain ⟨m, hm⟩ : ∃ m, s.numPipes = m + 1 := ⟨s.numPipes - 1, by omega⟩
  have hm1 : s.numPipes - 1 = m := by omega
  rw [hm1]
  have hswap := perm_map_range (m + 1) (Equiv.swap i m) (swap_fix (by omega) (by omega)) s.Pipe
  have hsplit : (List.range (m + 1)).map (s.Pipe ∘ Equiv.swap i m) =
      registered ⟨Function.update s.Pipe i (s.Pipe m), m, s.log⟩ ++ [s.Pipe i] := by
    rw [List.range_succ, List.map_append]
    simp only [List.map_cons, List.map_nil, Function.comp_apply, Equiv.swap_apply_right,
      registered]
    congr 1
    apply List.map_congr_left
    intro k hk
    have hk' : k < m := List.mem_range.1 hk
    by_cases hki : k = i
    · subst hki
      simp
    · have hkm : k ≠ m := by omega
      rw [Function.update_noteq hki, Function.comp_apply,
        Equiv.swap_apply_of_ne_of_ne hki hkm]
  rw [hsplit] at hswap
  have hreg : registered s = (List.range (m + 1)).map s.Pipe := by
    simp only [registered, hm]
  rw [hreg]
  exact hswap.symm.trans (List.perm_append_singleton _ _)

/-- C19: for every registry state and every handle `p`: if `p` occurs among
`Pipe[0..numPipes-1]`, `isPipe(p)` returns `TRUE`, decrements `numPipes` by
one and moves the last entry into the slot of an occurrence of `p`, so that
the old entries are, as a multiset, `p` together with the remaining entries;
if `p` does not occur, it returns `FALSE` and leaves `numPipes` and all
entries unchanged. -/
theorem isPipe_removes_one (p : FILE) (s : State) :
    ((∃ k, k < s.numPipes ∧ s.Pipe k = p) →
      (isPipe p s).1 = TRUE ∧ (isPipe p s).2.numPipes + 1 = s.numPipes ∧
      (registered s).Perm (p :: registered (isPipe p s).2) ∧
      (∃ i, i < s.numPipes ∧ s.Pipe i = p ∧
        (isPipe p s).2.Pipe = Function.update s.Pipe i (s.Pipe (s.numPipes - 1))) ∧
      (isPipe p s).2.log = s.log) ∧
    ((∀ k, k < s.numPipes → s.Pipe k ≠ p) → isPipe p s = (FALSE, s)) := by
  constructor
  · rintro ⟨k, hk, hp⟩
    obtain ⟨i, hi, hpi, his⟩ := isPipe_present p s k hk hp
    rw [his]
    refine ⟨rfl, by show s.numPipes - 1 + 1 = s.numPipes; omega, ?_, ⟨i, hi, hpi, rfl⟩, rfl⟩
    have := registered_remove s i hi
    rw [hpi] at this
    exact this
  · exact isPipe_absent p s

/-- Witness for C19: taking stream 3 out of the full registry. -/
theorem isPipe_removes_one_witness :
    (∃ k, k < fullRegistry.numPipes ∧ fullRegistry.Pipe k = FILE.stream 3) ∧
    (isPipe (FILE.stream 3) fullRegistry).1 = TRUE ∧
    (isPipe (FILE.stream 3) fullRegistry).2.numPipes + 1 = fullRegistry.numPipes ∧
    (registered fullRegistry).Perm
      (FILE.stream 3 :: registered (isPipe (FILE.stream 3) fullRegistry).2) ∧
    (∃ i, i < fullRegistry.numPipes ∧ fullRegistry.Pipe i = FILE.stream 3 ∧
      (isPipe (FILE.stream 3) fullRegistry).2.Pipe =
        Function.update fullRegistry.Pipe i (fullRegistry.Pipe (fullRegistry.numPipes - 1))) ∧
    (isPipe (FILE.stream 3) fullRegistry).2.log = fullRegistry.log :=
  ⟨⟨3, by decide, rfl⟩,
    (isPipe_removes_one (FILE.stream 3) fullRegistry).1 ⟨3, by decide, rfl⟩⟩

/-- C17, the code at the failing input: for `a = 1` and `b = 0` the test
`a >= 0.0 && b >= 0.0` succeeds, so `svd_fsign` returns `a = |a| = 1`, not
`-|a| = -1` as its comment says for a `b` that is not positive. -/
theorem fsign_at_zero :
    svd_fsign (1 : ℚ) 0 = |(1 : ℚ)| ∧ svd_fsign (1 : ℚ) 0 ≠ -|(1 : ℚ)| := by
  have h : svd_fsign (1 : ℚ) 0 = 1 := by
    simp [svd_fsign]
  rw [h]
  norm_num

theorem datx_unit_spec {α : Type} [Mul α] (da : α) (k : Nat) (dx dy : Int) (mem : Int → α)
    (hdis : ∀ i j : Nat, i < k → j < k → dx + i ≠ dy + j) :
    (∀ i : Nat, i < k → svd_datx_unit da k dx dy mem (dy + i) = da * mem (dx + i)) ∧
    (∀ a : Int, (∀ i : Nat, i < k → a ≠ dy + i) → svd_datx_unit da k dx dy mem a = mem a) := by
  induction k generalizing dx dy mem with
  | zero =>
    exact ⟨fun i hi => absurd hi (by omega), fun a _ => rfl⟩
  | succ k ih =>
    have hdis' : ∀ i j : Nat, i < k → j < k → (dx + 1) + i ≠ (dy + 1) + j := by
      intro i j hi hj h
      have := hdis (i + 1) (j + 1) (by omega) (by omega)
      apply this
      push_cast
      omega
    obtain ⟨h1, h2⟩ := ih (dx + 1) (dy + 1) (Function.update mem dy (da * mem dx)) hdis'
    simp only [svd_datx_unit]
    constructor
    · intro i hi
      cases i with
      | zero =>
        simp only [Nat.cast_zero, add_zero]
        rw [h2 dy (fun j _ => by omega)]
        simp
      | succ i =>
        have e : dy + ((i + 1 : Nat) : Int) = (dy + 1) + i := by push_cast; omega
        have e2 : dx + ((i + 1 : Nat) : Int) = (dx + 1) + i := by push_cast; omega
        rw [e, e2, h1 i (by omega)]
        congr 1
        apply Function.update_noteq
        intro hc
        have := hdis (i + 1) 0 (by omega) (by omega)
        apply this
        push_cast
        omega
    · intro a ha
      rw [h2 a]
      · apply Function.update_noteq
        have := ha 0 (by omega)
        simpa using this
      · intro i hi hc
        have := ha (i + 1) (by omega)
        apply this
        push_cast
        omega

/-- C18, as amended: for every `n > 0`, every constant `da` other than zero
and arrays `dx`, `dy` of length `n` that do not overlap, `svd_datx(n, da, dx,
1, dy, 1)` leaves `dy[i] = da * dx[i]` for every `0 <= i < n` and `dx`
unchanged; for `da = 0` the call returns at once and leaves the memory, `dy`
included, as it was. -/
theorem datx_scales {α : Type} [Field α] [DecidableEq α] (n : Int) (da : α) (dx dy : Int)
    (mem : Int → α) (hn : 0 < n)
    (hdis : ∀ i j : Int, 0 ≤ i → i < n → 0 ≤ j → j < n → dx + i ≠ dy + j) :
    (da ≠ 0 → ∀ i : Int, 0 ≤ i → i < n →
      svd_datx n da dx 1 dy 1 mem (dy + i) = da * mem (dx + i) ∧
      svd_datx n da dx 1 dy 1 mem (dx + i) = mem (dx + i)) ∧
    (da = 0 → svd_datx n da dx 1 dy 1 mem = mem) := by
  constructor
  · intro hda i hi0 hin
    have hg : ¬ (n ≤ 0 ∨ (1 : Int) = 0 ∨ (1 : Int) = 0 ∨ da = 0) := by
      simp only [one_ne_zero, false_or, not_or]
      exact ⟨by omega, hda⟩
    have e : svd_datx n da dx 1 dy 1 mem = svd_datx_unit da n.toNat dx dy mem := by
      simp only [svd_datx, if_neg hg, and_self, if_true]
    have hdis' : ∀ i j : Nat, i < n.toNat → j < n.toNat → dx + i ≠ dy + j := by
      intro i j hi hj
      exact hdis i j (by omega) (by omega) (by omega) (by omega)
    obtain ⟨h1, h2⟩ := datx_unit_spec da n.toNat dx dy mem hdis'
    rw [e]
    have hi : (i.toNat : Int) = i := Int.toNat_of_nonneg hi0
    constructor
    · have := h1 i.toNat (by omega)
      rw [hi] at this
      exact this
    · apply h2
      intro j hj hc
      exact hdis i j hi0 hin (by omega) (by omega) hc
  · intro hda
    have hg : n ≤ 0 ∨ (1 : Int) = 0 ∨ (1 : Int) = 0 ∨ da = 0 := Or.inr (Or.inr (Or.inr hda))
    simp only [svd_datx, if_pos hg]

/-- Witness for C18: two elements scaled by `3`, `dx` at cells 0 and 1, `dy`
at cells 2 and 3. -/
theorem datx_scales_witness :
    ((0 : Int) < 2 ∧
      ∀ i j : Int, 0 ≤ i → i < 2 → 0 ≤ j → j < 2 → (0 : Int) + i ≠ 2 + j) ∧
    ((3 : ℚ) ≠ 0 → ∀ i : Int, 0 ≤ i → i < 2 →
      svd_datx 2 (3 : ℚ) 0 1 2 1 memFiveSeven (2 + i) = 3 * memFiveSeven (0 + i) ∧
      svd_datx 2 (3 : ℚ) 0 1 2 1 memFiveSeven (0 + i) = memFiveSeven (0 + i)) :=
  ⟨⟨by decide, fun i j _ _ _ _ => by omega⟩,
    (datx_scales 2 (3 : ℚ) 0 2 memFiveSeven (by decide)
      (fun i j _ _ _ _ => by omega)).1⟩

/-- Counterexample to C18 as stated (for every constant `da`): with `da = 0`,
`dx[0] = 5` and `dy[0] = 7`, `svd_datx` returns before its loop and `dy[0]`
stays `7`, which is not `0 * 5`. -/
theorem datx_zero_constant_fails :
    ¬ (∀ (n : Int) (da : ℚ) (dx dy : Int) (mem : Int → ℚ), 0 < n →
        (∀ i j : Int, 0 ≤ i → i < n → 0 ≤ j → j < n → dx + i ≠ dy + j) →
        ∀ i : Int, 0 ≤ i → i < n →
          svd_datx n da dx 1 dy 1 mem (dy + i) = da * mem (dx + i) ∧
          svd_datx n da dx 1 dy 1 mem (dx + i) = mem (dx + i)) := by
  intro H
  have h := (H 1 0 0 1 memFiveSeven (by decide) (fun i j _ _ _ _ => by omega) 0
    (le_refl _) (by decide)).1
  have e : svd_datx 1 (0 : ℚ) 0 1 1 1 memFiveSeven = memFiveSeven := by
    simp [svd_datx]
  rw [e] at h
  simp [memFiveSeven] at h

theorem swapCells_eq_comp {γ : Type} (a : Nat → γ) (j index : Nat) :
    swapCells a j index = a ∘ Equiv.swap j index := by
  funext k
  simp only [swapCells, Function.comp_apply]
  by_cases hk : k = index
  · subst hk
    simp
  · rw [Function.update_noteq hk]
    by_cases hj : k = j
    · subst hj
      simp
    · rw [Function.update_noteq hj, Equiv.swap_apply_of_ne_of_ne hj hk]

theorem shuffled_refl {α β : Type} (n : Nat) (a1 : Nat → α) (a2 : Nat → β) :
    Shuffled n a1 a2 a1 a2 :=
  ⟨Equiv.refl Nat, fun _ _ => rfl, rfl, rfl⟩

theorem shuffled_trans {α β : Type} {n : Nat} {a1 b1 c1 : Nat → α} {a2 b2 c2 : Nat → β}
    (h1 : Shuffled n a1 a2 b1 b2) (h2 : Shuffled n b1 b2 c1 c2) : Shuffled n a1 a2 c1 c2 := by
  obtain ⟨σ, hσ, e1, e2⟩ := h1
  obtain ⟨τ, hτ, f1, f2⟩ := h2
  refine ⟨τ.trans σ, ?_, ?_, ?_⟩
  · intro k hk
    simp only [Equiv.trans_apply]
    rw [hτ k hk, hσ k hk]
  · rw [f1, e1]; rfl
  · rw [f2, e2]; rfl

theorem shuffled_swap {α β : Type} {n : Nat} (a1 : Nat → α) (a2 : Nat → β) {j index : Nat}
    (hj : j < n) (hi : index < n) :
    Shuffled n a1 a2 (swapCells a1 j index) (swapCells a2 j index) :=
  ⟨Equiv.swap j index, swap_fix hj hi, swapCells_eq_comp a1 j index,
    swapCells_eq_comp a2 j index⟩

theorem while_shuffled {α β : Type} (gt : α → α → Bool) (igap : Nat) (hgap : 0 < igap)
    (n : Nat) (m : Nat) :
    ∀ (j index : Int) (a1 : Nat → α) (a2 : Nat → β), (j + 1).toNat ≤ m → j ≤ index →
      index < n →
      Shuffled n a1 a2 (svd_dsort2_while gt igap hgap j index a1 a2).1
        (svd_dsort2_while gt igap hgap j index a1 a2).2 := by
  induction m with
  | zero =>
    intro j index a1 a2 hm hji hin
    rw [svd_dsort2_while]
    have hneg : ¬ (j ≥ 0 ∧ gt (a1 j.toNat) (a1 index.toNat) = true) := by
      intro h; omega
    rw [if_neg hneg]
    exact shuffled_refl n a1 a2
  | succ m ih =>
    intro j index a1 a2 hm hji hin
    rw [svd_dsort2_while]
    by_cases hc : j ≥ 0 ∧ gt (a1 j.toNat) (a1 index.toNat) = true
    · rw [if_pos hc]
      have h1 : Shuffled n a1 a2 (swapCells a1 j.toNat index.toNat)
          (swapCells a2 j.toNat index.toNat) :=
        shuffled_swap a1 a2 (by omega) (by omega)
      exact shuffled_trans h1
        (ih (j - igap) (j - igap + igap) _ _ (by omega) (by omega) (by omega))
    · rw [if_neg hc]
      exact shuffled_refl n a1 a2

theorem for_shuffled {α β : Type} (gt : α → α → Bool) (igap : Nat) (hgap : 0 < igap)
    (n : Nat) (k : Nat) :
    ∀ (i : Nat) (a1 : Nat → α) (a2 : Nat → β), i + k ≤ n →
      Shuffled n a1 a2 (svd_dsort2_for gt igap hgap k i a1 a2).1
        (svd_dsort2_for gt igap hgap k i a1 a2).2 := by
  induction k with
  | zero =>
    intro i a1 a2 _
    exact shuffled_refl n a1 a2
  | succ k ih =>
    intro i a1 a2 hik
    simp only [svd_dsort2_for]
    have h1 := while_shuffled gt igap hgap n ((i : Int) - igap + 1).toNat ((i : Int) - igap) i
      a1 a2 (le_refl _) (by omega) (by omega)
    exact shuffled_trans h1 (ih (i + 1) _ _ (by omega))

theorem dsort2_shuffled {α β : Type} (gt : α → α → Bool) (n : Nat) (igap : Nat) :
    ∀ (a1 : Nat → α) (a2 : Nat → β),
      Shuffled n a1 a2 (svd_dsort2 gt igap n a1 a2).1 (svd_dsort2 gt igap n a1 a2).2 := by
  induction igap using Nat.strong_induction_on with
  | _ igap ih =>
    intro a1 a2
    rw [svd_dsort2]
    by_cases h : igap = 0
    · rw [dif_pos h]
      exact shuffled_refl n a1 a2
    · rw [dif_neg h]
      have h1 := for_shuffled gt igap (Nat.pos_of_ne_zero h) n (n - igap) igap a1 a2
      by_cases hle : igap ≤ n
      · exact shuffled_trans (h1 (by omega))
          (ih (igap / 2) (Nat.div_lt_self (Nat.pos_of_ne_zero h) (by decide)) _ _)
      · have hz : n - igap = 0 := by omega
        rw [hz]
        exact ih (igap / 2) (Nat.div_lt_self (Nat.pos_of_ne_zero h) (by decide)) _ _

/-- C20: for every `n`, every `igap >= 0`, every comparison of the elements
and all arrays, `svd_dsort2(igap, n, array1, array2)` applies one and the
same permutation of the cells below `n` to both arrays (cells from `n` on
stay as they are), so the sequence of pairs `(array1[i], array2[i])` after
the call is a permutation of the sequence before it; with `igap = 0` both
arrays are unchanged. -/
theorem dsort2_same_permutation {α β : Type} (gt : α → α → Bool) (igap n : Nat)
    (array1 : Nat → α) (array2 : Nat → β) :
    (∃ σ : Equiv.Perm Nat, (∀ k, n ≤ k → σ k = k) ∧
      (svd_dsort2 gt igap n array1 array2).1 = array1 ∘ σ ∧
      (svd_dsort2 gt igap n array1 array2).2 = array2 ∘ σ) ∧
    ((List.range n).map (fun i => ((svd_dsort2 gt igap n array1 array2).1 i,
        (svd_dsort2 gt igap n array1 array2).2 i))).Perm
      ((List.range n).map (fun i => (array1 i, array2 i))) ∧
    svd_dsort2 gt 0 n array1 array2 = (array1, array2) := by
  have hs := dsort2_shuffled gt n igap array1 array2
  refine ⟨hs, ?_, ?_⟩
  · obtain ⟨σ, hσ, e1, e2⟩ := hs
    rw [e1, e2]
    exact perm_map_range n σ hσ (fun i => (array1 i, array2 i))
  · rw [svd_dsort2, dif_pos rfl]

theorem while_insert {α β : Type} [LinearOrder α] (i : Nat) (idx : Nat) :
    ∀ (j index : Int) (a1 : Nat → α) (a2 : Nat → β), j = (idx : Int) - 1 → index = idx →
      idx ≤ i →
      (∀ k l : Nat, k < l → l ≤ i → k ≠ idx → l ≠ idx → a1 k ≤ a1 l) →
      (∀ l : Nat, idx < l → l ≤ i → a1 idx ≤ a1 l) →
      ∀ k l : Nat, k < l → l ≤ i →
        (svd_dsort2_while (fun x y => decide (y < x)) 1 Nat.one_pos j index a1 a2).1 k ≤
          (svd_dsort2_while (fun x y => decide (y < x)) 1 Nat.one_pos j index a1 a2).1 l := by
  induction idx with
  | zero =>
    intro j index a1 a2 hj hindex _ hA hB k l hkl hli
    rw [svd_dsort2_while]
    have hneg : ¬ (j ≥ 0 ∧ decide (a1 index.toNat < a1 j.toNat) = true) := by
      intro h
      have := h.1
      simp only [Nat.cast_zero] at hj
      omega
    rw [if_neg hneg]
    by_cases hk : k = 0
    · subst hk
      exact hB l hkl hli
    · exact hA k l hkl hli hk (by omega)
  | succ m ih =>
    intro j index a1 a2 hj hindex hmi hA hB k l hkl hli
    have hjm : j.toNat = m := by
      rw [hj]; push_cast; omega
    have him : index.toNat = m + 1 := by
      rw [hindex]; exact Int.toNat_ofNat (m + 1)
    rw [svd_dsort2_while]
    by_cases hc : j ≥ 0 ∧ decide (a1 index.toNat < a1 j.toNat) = true
    · rw [if_pos hc]
      have hlt : a1 (m + 1) < a1 m := by
        have := hc.2
        rw [hjm, him] at this
        exact of_decide_eq_true this
      rw [hjm, him]
      have hsw1 : ∀ x, x ≠ m → x ≠ m + 1 → swapCells a1 m (m + 1) x = a1 x := by
        intro x h1 h2
        simp only [swapCells]
        rw [Function.update_noteq h2, Function.update_noteq h1]
      have hswm : swapCells a1 m (m + 1) m = a1 (m + 1) := by
        simp only [swapCells]
        rw [Function.update_noteq (by omega), Function.update_same]
      have hswm1 : swapCells a1 m (m + 1) (m + 1) = a1 m := by
        simp only [swapCells]
        rw [Function.update_same]
      refine ih (j - (1 : Nat)) (j - (1 : Nat) + (1 : Nat)) (swapCells a1 m (m + 1))
        (swapCells a2 m (m + 1)) (by rw [hj]; push_cast; omega) (by rw [hj]; push_cast; omega)
        (by omega) ?_ ?_ k l hkl hli
      · intro k l hkl hli hk hl
        by_cases hl1 : l = m + 1
        · subst hl1
          rw [hswm1, hsw1 k hk (by omega)]
          exact hA k m (by omega) (by omega) (by omega) (by omega)
        · by_cases hk1 : k = m + 1
          · subst hk1
            rw [hswm1, hsw1 l hl hl1]
            exact hA m l (by omega) hli (by omega) hl1
          · rw [hsw1 k hk hk1, hsw1 l hl hl1]
            exact hA k l hkl hli hk1 hl1
      · intro l hml hli
        rw [hswm]
        by_cases hl1 : l = m + 1
        · subst hl1
          rw [hswm1]
          exact le_of_lt hlt
        · rw [hsw1 l (by omega) hl1]
          exact hB l (by omega) hli
    · rw [if_neg hc]
      have hle : a1 m ≤ a1 (m + 1) := by
        by_contra hlt
        apply hc
        refine ⟨by rw [hj]; push_cast; omega, ?_⟩
        rw [hjm, him]
        exact decide_eq_true (lt_of_not_le hlt)
      show a1 k ≤ a1 l
      by_cases hl1 : l = m + 1
      · subst hl1
        by_cases hkm : k = m
        · subst hkm; exact hle
        · exact le_trans (hA k m (by omega) (by omega) (by omega) (by omega)) hle
      · by_cases hk1 : k = m + 1
        · subst hk1
          exact hB l hkl hli
        · exact hA k l hkl hli hk1 hl1

theorem for_insert {α β : Type} [LinearOrder α] (k : Nat) :
    ∀ (i : Nat) (a1 : Nat → α) (a2 : Nat → β), 1 ≤ i →
      (∀ x y : Nat, x < y → y < i → a1 x ≤ a1 y) →
      ∀ x y : Nat, x < y → y < i + k →
        (svd_dsort2_for (fun x y => decide (y < x)) 1 Nat.one_pos k i a1 a2).1 x ≤
          (svd_dsort2_for (fun x y => decide (y < x)) 1 Nat.one_pos k i a1 a2).1 y := by
  induction k with
  | zero =>
    intro i a1 a2 _ hs x y hxy hy
    exact hs x y hxy hy
  | succ k ih =>
    intro i a1 a2 hi hs x y hxy hy
    simp only [svd_dsort2_for]
    refine ih (i + 1) _ _ (by omega) ?_ x y hxy (by omega)
    intro x y hxy hy
    exact while_insert i i ((i : Int) - (1 : Nat)) i a1 a2 (by push_cast; rfl) rfl (le_refl _)
      (fun k l hkl hli _ hl => hs k l hkl (by omega))
      (fun l h1 h2 => absurd h1 (by omega)) x y hxy (by omega)

theorem dsort2_sorted {α β : Type} [LinearOrder α] (n : Nat) (igap : Nat) :
    ∀ (a1 : Nat → α) (a2 : Nat → β), 1 ≤ igap →
      ∀ x y : Nat, x < y → y < n →
        (svd_dsort2 (fun x y => decide (y < x)) igap n a1 a2).1 x ≤
          (svd_dsort2 (fun x y => decide (y < x)) igap n a1 a2).1 y := by
  induction igap using Nat.strong_induction_on with
  | _ igap ih =>
    intro a1 a2 hgap x y hxy hy
    have h : igap ≠ 0 := by omega
    rw [svd_dsort2, dif_neg h]
    by_cases h1 : igap = 1
    · subst h1
      simp only [Nat.reduceDiv]
      rw [svd_dsort2, dif_pos rfl]
      exact for_insert (n - 1) 1 a1 a2 (le_refl _) (fun x y hxy hy => absurd hy (by omega))
        x y hxy (by omega)
    · exact ih (igap / 2) (Nat.div_lt_self (by omega) (by decide)) _ _
        (by omega) x y hxy hy

/-- C16: for every `n`, every starting gap `igap >= 1` and arrays whose
`array1` elements are totally ordered, `svd_dsort2(igap, n, array1, array2)`
(a total function: the recursion on `igap / 2` reaches `0` and the inner
loop ends) leaves `array1` in non-decreasing order:
`array1[i] <= array1[i+1]` for all `0 <= i < n-1`. -/
theorem dsort2_sorts {α β : Type} [LinearOrder α] (igap n : Nat) (hgap : 1 ≤ igap)
    (array1 : Nat → α) (array2 : Nat → β) (i : Nat) (hi : i + 1 < n) :
    (svd_dsort2 (fun x y => decide (y < x)) igap n array1 array2).1 i ≤
      (svd_dsort2 (fun x y => decide (y < x)) igap n array1 array2).1 (i + 1) :=
  dsort2_sorted n igap array1 array2 hgap i (i + 1) (by omega) hi

/-- Witness for C16: seven keys sorted from the starting gap 3, cells 2 and 3. -/
theorem dsort2_sorts_witness :
    (1 ≤ 3 ∧ 2 + 1 < 7) ∧
    (svd_dsort2 (fun x y => decide (y < x)) 3 7 sampleKeys sampleValues).1 2 ≤
      (svd_dsort2 (fun x y => decide (y < x)) 3 7 sampleKeys sampleValues).1 (2 + 1) :=
  ⟨by decide, dsort2_sorts 3 7 (by decide) sampleKeys sampleValues 2 (by decide)⟩

theorem random2_value (iy : Int) (r : Int × ℚ) (h : svd_random2 iy = some r) :
    r.2 = (r.1 : ℚ) * (1 / 2147483648) := by
  unfold svd_random2 at h
  split at h
  · exact absurd h (by simp)
  · split at h
    · exact absurd h (by simp)
    · split at h
      · exact absurd h (by simp)
      · split at h
        · exact absurd h (by simp)
        · split at h
          · exact absurd h (by simp)
          · rw [← Option.some.inj h]

/-- C21, the code at the failing input: from the seed `1` the first call
leaves `*iy = 1297131554`, inside `(0, 2^31)`; fed back, the second call
computes `1297131554 * 843314861` in 64 bits without wrapping, subtracts
`2^31` only twice and leaves `*iy = 1093890312319073391`, which is not below
`2^31`; the value returned is `*iy * 2^-31`, above `509382371` and so not
below `1`. -/
theorem random2_second_call_escapes :
    (svd_random2 1).map Prod.fst = some 1297131554 ∧
    (svd_random2 1297131554).map Prod.fst = some 1093890312319073391 ∧
    ¬ ((1093890312319073391 : Int) < 2 ^ 31) ∧
    (svd_random2 1297131554).map Prod.snd =
      some ((1093890312319073391 : ℚ) * (1 / 2147483648)) ∧
    ¬ ((1093890312319073391 : ℚ) * (1 / 2147483648) < 1) := by
  have h2 : (svd_random2 1297131554).map Prod.fst = some 1093890312319073391 := by decide
  refine ⟨by decide, h2, by decide, ?_, by norm_num⟩
  cases hr : svd_random2 1297131554 with
  | none => rw [hr] at h2; exact absurd h2 (by simp)
  | some r =>
    have hv := random2_value _ r hr
    rw [hr] at h2
    have h1 : r.1 = 1093890312319073391 := Option.some.inj h2
    rw [h1] at hv
    simp only [Option.map_some', hv]
    norm_num

theorem openPipe_some (os : OS) (cmd mode : CStr) (s : State) (h : s.numPipes < MAX_PIPES) :
    (openPipe os cmd mode s).isSome = true := by
  rw [openPipe_eq]
  cases os.popen cmd mode with
  | none => rfl
  | some id =>
    simp only
    rw [registerPipe_below (FILE.stream id)
      ((s.emit Event.fflush_stdout).emit (Event.popen cmd mode (FILE.stream id))) h]
    rfl

theorem readZippedFile_some (os : OS) (command file : CStr) (s : State)
    (hfit : command.length + file.length + 15 < 512) (h : s.numPipes < MAX_PIPES) :
    (readZippedFile os command file s).isSome = true := by
  rw [readZippedFile_fits os command file s hfit]
  exact openPipe_some os _ _ s h

theorem probe_some (os : OS) (P : CStr) (s : State) (hlen : P.length ≤ 484)
    (h : s.numPipes < MAX_PIPES) : (svd_readFile_probe os P s).isSome = true := by
  cases h1 : os.stat (P ++ ".gz".toList) with
  | true =>
    rw [probe_gz os P s hlen h1]
    exact openPipe_some os _ _ _ h
  | false =>
    cases h2 : os.stat (P ++ ".Z".toList) with
    | true =>
      rw [probe_Z os P s hlen h1 h2]
      exact openPipe_some os _ _ _ h
    | false =>
      cases h3 : os.stat (P ++ ".bz2".toList) with
      | true =>
        rw [probe_bz2 os P s hlen h1 h2 h3]
        exact openPipe_some os _ _ _ h
      | false =>
        cases h4 : os.stat (P ++ ".bz".toList) with
        | true =>
          rw [probe_bz os P s hlen h1 h2 h3 h4]
          exact openPipe_some os _ _ _ h
        | false =>
          rw [probe_none os P s (by omega) h1 h2 h3 h4]
          rfl

theorem readFile_some (os : OS) (P : CStr) (s : State) (hlen : P.length ≤ 484)
    (h : s.numPipes < MAX_PIPES) : (svd_readFile os P s).isSome = true := by
  have hu : UNZIP.length = 7 := by decide
  have hb : BUNZIP2.length = 8 := by decide
  unfold svd_readFile
  simp only [stat]
  split
  · rfl
  · split
    · exact openPipe_some os _ _ s h
    · split
      · cases os.stat P with
        | true => exact readZippedFile_some os _ _ _ (by omega) h
        | false => rfl
      · split
        · cases os.stat P with
          | true => exact readZippedFile_some os _ _ _ (by omega) h
          | false => rfl
        · cases os.stat P with
          | true => rfl
          | false => exact probe_some os P _ hlen h

theorem writeFile_some (os : OS) (P : CStr) (append : Int) (s : State)
    (hlen : P.length ≤ 484) (h : s.numPipes < MAX_PIPES) :
    (svd_writeFile os P append s).isSome = true := by
  have hop : (if append ≠ 0 then ">>".toList else ">".toList : CStr).length ≤ 2 := by
    split <;> decide
  have h1 : BZIP2.length = 8 := by decide
  have h2 : COMPRESS.length = 8 := by decide
  have h3 : ZIP.length = 7 := by decide
  unfold svd_writeFile
  split
  · rfl
  · split
    · exact openPipe_some os _ _ s h
    · split
      · simp only [writeZippedFile]
        have hfit : (if (stringEndsIn P ".bz2".toList || stringEndsIn P ".bz".toList) = true
            then writeCommand BZIP2 (if append ≠ 0 then ">>".toList else ">".toList) P
            else if stringEndsIn P ".Z".toList = true
              then writeCommand COMPRESS (if append ≠ 0 then ">>".toList else ">".toList) P
              else writeCommand ZIP (if append ≠ 0 then ">>".toList else ">".toList) P).length
            < 512 := by
          split
          · rw [writeCommand_length]; omega
          · split
            · rw [writeCommand_length]; omega
            · rw [writeCommand_length]; omega
        rw [sprintf_fits _ hfit]
        exact openPipe_some os _ _ s h
      · split <;> rfl

/-- C22: for every file name `P` of at most 484 characters, every string
that `svd_readFile` and `svd_writeFile` format into a `MAX_FILENAME = 512`
byte buffer has length at most 511: the candidate names `P.gz`, `P.Z`,
`P.bz2`, `P.bz`, the decompressor commands `<cmd> < <file> 2>/dev/null` for
`P` and the candidates, and the compressor commands `<cmd> <op> "P"`; so no
`sprintf` overruns its buffer, and for every file system and append flag
both calls have a defined result whenever the registry has a free cell. -/
theorem formatted_strings_fit (P : CStr) (hlen : P.length ≤ 484) :
    ((P ++ ".gz".toList).length ≤ 511 ∧ (P ++ ".Z".toList).length ≤ 511 ∧
      (P ++ ".bz2".toList).length ≤ 511 ∧ (P ++ ".bz".toList).length ≤ 511) ∧
    (∀ command file : CStr, command = UNZIP ∨ command = BUNZIP2 →
      file = P ∨ file = P ++ ".gz".toList ∨ file = P ++ ".Z".toList ∨
        file = P ++ ".bz2".toList ∨ file = P ++ ".bz".toList →
      (command ++ " < ".toList ++ file ++ " 2>/dev/null".toList).length ≤ 511 ∧
      sprintf (command ++ " < ".toList ++ file ++ " 2>/dev/null".toList) =
        some (command ++ " < ".toList ++ file ++ " 2>/dev/null".toList)) ∧
    (∀ command op : CStr, command = BZIP2 ∨ command = COMPRESS ∨ command = ZIP →
      op = ">>".toList ∨ op = ">".toList →
      (writeCommand command op P).length ≤ 511 ∧
      sprintf (writeCommand command op P) = some (writeCommand command op P)) ∧
    (∀ (os : OS) (s : State), s.numPipes < MAX_PIPES →
      (svd_readFile os P s).isSome = true) ∧
    (∀ (os : OS) (append : Int) (s : State), s.numPipes < MAX_PIPES →
      (svd_writeFile os P append s).isSome = true) := by
  have l1 : (P ++ ".gz".toList).length = P.length + 3 := by simp
  have l2 : (P ++ ".Z".toList).length = P.length + 2 := by simp
  have l3 : (P ++ ".bz2".toList).length = P.length + 4 := by simp
  have l4 : (P ++ ".bz".toList).length = P.length + 3 := by simp
  have e1 : " < ".toList.length = 3 := by decide
  have e2 : " 2>/dev/null".toList.length = 12 := by decide
  refine ⟨⟨by omega, by omega, by omega, by omega⟩, ?_, ?_,
    fun os s h => readFile_some os P s hlen h,
    fun os append s h => writeFile_some os P append s hlen h⟩
  · intro command file hc hf
    have hcl : command.length ≤ 8 := by
      rcases hc with h | h <;> rw [h] <;> decide
    have hfl : file.length ≤ P.length + 4 := by
      rcases hf with h | h | h | h | h <;> rw [h] <;> omega
    have hl : (command ++ " < ".toList ++ file ++ " 2>/dev/null".toList).length ≤ 511 := by
      simp only [List.length_append, e1, e2]
      omega
    exact ⟨hl, sprintf_fits _ (by omega)⟩
  · intro command op hc ho
    have hcl : command.length ≤ 8 := by
      rcases hc with h | h | h <;> rw [h] <;> decide
    have hol : op.length ≤ 2 := by
      rcases ho with h | h <;> rw [h] <;> decide
    have hl : (writeCommand command op P).length ≤ 511 := by
      rw [writeCommand_length]; omega
    exact ⟨hl, sprintf_fits _ (by omega)⟩

/-- Witness for C22: the name `name.bz2`. -/
theorem formatted_strings_fit_witness :
    "name.bz2".toList.length ≤ 484 ∧
    (("name.bz2".toList ++ ".gz".toList).length ≤ 511 ∧
      ("name.bz2".toList ++ ".Z".toList).length ≤ 511 ∧
      ("name.bz2".toList ++ ".bz2".toList).length ≤ 511 ∧
      ("name.bz2".toList ++ ".bz".toList).length ≤ 511) ∧
    (∀ command file : CStr, command = UNZIP ∨ command = BUNZIP2 →
      file = "name.bz2".toList ∨ file = "name.bz2".toList ++ ".gz".toList ∨
        file = "name.bz2".toList ++ ".Z".toList ∨
        file = "name.bz2".toList ++ ".bz2".toList ∨
        file = "name.bz2".toList ++ ".bz".toList →
      (command ++ " < ".toList ++ file ++ " 2>/dev/null".toList).length ≤ 511 ∧
      sprintf (command ++ " < ".toList ++ file ++ " 2>/dev/null".toList) =
        some (command ++ " < ".toList ++ file ++ " 2>/dev/null".toList)) ∧
    (∀ command op : CStr, command = BZIP2 ∨ command = COMPRESS ∨ command = ZIP →
      op = ">>".toList ∨ op = ">".toList →
      (writeCommand command op "name.bz2".toList).length ≤ 511 ∧
      sprintf (writeCommand command op "name.bz2".toList) =
        some (writeCommand command op "name.bz2".toList)) ∧
    (∀ (os : OS) (s : State), s.numPipes < MAX_PIPES →
      (svd_readFile os "name.bz2".toList s).isSome = true) ∧
    (∀ (os : OS) (append : Int) (s : State), s.numPipes < MAX_PIPES →
      (svd_writeFile os "name.bz2".toList append s).isSome = true) :=
  ⟨by decide, formatted_strings_fit "name.bz2".toList (by decide)⟩

theorem allStat_one (a : CStr) : ∀ e ∈ [Event.stat a], ∃ p, e = Event.stat p := by
  intro e he
  simp only [List.mem_singleton] at he
  exact ⟨a, he⟩

theorem allStat_more (pre : List Event) (a : CStr)
    (h : ∀ e ∈ pre, ∃ p, e = Event.stat p) :
    ∀ e ∈ pre ++ [Event.stat a], ∃ p, e = Event.stat p :=
  allStat_snoc h a

theorem emit_form (s s0 : State) (pre : List Event) (e : Event)
    (h : s0 = ⟨s.Pipe, s.numPipes, s.log ++ pre⟩) :
    s0.emit e = ⟨s.Pipe, s.numPipes, s.log ++ (pre ++ [e])⟩ := by
  subst h
  simp only [State.emit, List.append_assoc]

theorem emit_form_left (s s0 : State) (pre : List Event) (e : Event)
    (h : s0 = ⟨s.Pipe, s.numPipes, s.log ++ pre⟩) :
    s0.emit e = ⟨s.Pipe, s.numPipes, s.log ++ pre ++ [e]⟩ := by
  subst h
  rfl

/-- C15, as amended: for every path `P` of at most 484 characters that does
not start with a bar, and every file system, `svd_readFile(P)` does one of
four things: return `stdin` at once; return `NULL` after `stat` calls only;
open the existing `P` directly after `stat` calls only; or spawn, through
`openPipe`, the command `<decompressor> < file 2>/dev/null` (the decompressor
being `gzip -d` or `bzip2 -d`) right after a successful `stat` of that very
`file`, only `stat` calls going before.
Consequently, whenever it returns `NULL`, no `popen` returned a process and
the registry (`Pipe` and `numPipes`) is unchanged. -/
theorem readFile_spawn_follows_stat (os : OS) (P : CStr) (s : State) (hlen : P.length ≤ 484)
    (hbar : P.head? ≠ some '|') :
    (svd_readFile os P s = some (FILE.stdin, s) ∨
      (∃ pre, (∀ e ∈ pre, ∃ p, e = Event.stat p) ∧
        svd_readFile os P s = some (FILE.NULL, ⟨s.Pipe, s.numPipes, s.log ++ pre⟩)) ∨
      (∃ pre, (∀ e ∈ pre, ∃ p, e = Event.stat p) ∧ os.stat P = true ∧
        svd_readFile os P s =
          some (fopen os P "r".toList ⟨s.Pipe, s.numPipes, s.log ++ pre⟩)) ∨
      (∃ pre file dec, (∀ e ∈ pre, ∃ p, e = Event.stat p) ∧ os.stat file = true ∧
        (dec = UNZIP ∨ dec = BUNZIP2) ∧
        svd_readFile os P s =
          openPipe os (dec ++ " < ".toList ++ file ++ " 2>/dev/null".toList) "r".toList
            ⟨s.Pipe, s.numPipes, s.log ++ pre ++ [Event.stat file]⟩)) ∧
    (∀ s1, svd_readFile os P s = some (FILE.NULL, s1) →
      s1.Pipe = s.Pipe ∧ s1.numPipes = s.numPipes ∧
      ∃ evs, s1.log = s.log ++ evs ∧
        ∀ cmd mode r, Event.popen cmd mode r ∈ evs → r = FILE.NULL) := by
  constructor
  · by_cases hdash : P = "-".toList
    · left
      simp only [svd_readFile, if_pos hdash]
    · right
      by_cases hs : (stringEndsIn P ".gz".toList || stringEndsIn P ".Z".toList) = true ∨
          (stringEndsIn P ".bz".toList || stringEndsIn P ".bz2".toList) = true
      · obtain ⟨dec, hdec, hd⟩ := readFile_suffixed_eq os P s hlen hdash hbar hs
        cases hP : os.stat P with
        | true =>
          rw [hP, if_pos rfl] at hd
          exact Or.inr (Or.inr (spawn_form os P s _ [] P dec
            (emit_form_left s s [] (Event.stat P) (by simp))
            (fun e he => absurd he (by simp)) hP hdec hd))
        | false =>
          rw [hP, if_neg (by simp)] at hd
          exact Or.inl (not_found_form os P s _ [Event.stat P] rfl (allStat_one P) hd)
      · have hgz : stringEndsIn P ".gz".toList = false := by
          cases h : stringEndsIn P ".gz".toList
          · rfl
          · exact absurd (Or.inl (by rw [h]; rfl)) hs
        have hZ : stringEndsIn P ".Z".toList = false := by
          cases h : stringEndsIn P ".Z".toList
          · rfl
          · exact absurd (Or.inl (by rw [h, Bool.or_true])) hs
        have hbz : stringEndsIn P ".bz".toList = false := by
          cases h : stringEndsIn P ".bz".toList
          · rfl
          · exact absurd (Or.inr (by rw [h]; rfl)) hs
        have hbz2 : stringEndsIn P ".bz2".toList = false := by
          cases h : stringEndsIn P ".bz2".toList
          · rfl
          · exact absurd (Or.inr (by rw [h, Bool.or_true])) hs
        cases hP : os.stat P with
        | true =>
          refine Or.inr (Or.inl ⟨[Event.stat P], allStat_one P, rfl, ?_⟩)
          simp only [svd_readFile, if_neg hdash, if_neg hbar, hgz, hZ, hbz, hbz2, stat, hP,
            Bool.or_self, Bool.false_eq_true, if_false, State.emit]
        | false =>
          have hp := readFile_to_probe os P s hdash hbar hgz hZ hbz hbz2 hP
          have a1 := allStat_one P
          have q1 : s.emit (Event.stat P) = ⟨s.Pipe, s.numPipes, s.log ++ [Event.stat P]⟩ := rfl
          cases h1 : os.stat (P ++ ".gz".toList) with
          | true =>
            have h := hp.trans (probe_gz os P _ hlen h1)
            rw [← unzip_text] at h
            exact Or.inr (Or.inr (spawn_form os P s _ _ (P ++ ".gz".toList) UNZIP
              (emit_form_left s _ _ _ q1) a1 h1 (Or.inl rfl) h))
          | false =>
            have a2 := allStat_more _ (P ++ ".gz".toList) a1
            have q2 := emit_form s _ _ (Event.stat (P ++ ".gz".toList)) q1
            cases h2 : os.stat (P ++ ".Z".toList) with
            | true =>
              have h := hp.trans (probe_Z os P _ hlen h1 h2)
              rw [← unzip_text] at h
              exact Or.inr (Or.inr (spawn_form os P s _ _ (P ++ ".Z".toList) UNZIP
                (emit_form_left s _ _ _ q2) a2 h2 (Or.inl rfl) h))
            | false =>
              have a3 := allStat_more _ (P ++ ".Z".toList) a2
              have q3 := emit_form s _ _ (Event.stat (P ++ ".Z".toList)) q2
              cases h3 : os.stat (P ++ ".bz2".toList) with
              | true =>
                have h := hp.trans (probe_bz2 os P _ hlen h1 h2 h3)
                rw [← bunzip2_text] at h
                exact Or.inr (Or.inr (spawn_form os P s _ _ (P ++ ".bz2".toList) BUNZIP2
                  (emit_form_left s _ _ _ q3) a3 h3 (Or.inr rfl) h))
              | false =>
                have a4 := allStat_more _ (P ++ ".bz2".toList) a3
                have q4 := emit_form s _ _ (Event.stat (P ++ ".bz2".toList)) q3
                cases h4 : os.stat (P ++ ".bz".toList) with
                | true =>
                  have h := hp.trans (probe_bz os P _ hlen h1 h2 h3 h4)
                  rw [← bunzip2_text] at h
                  exact Or.inr (Or.inr (spawn_form os P s _ _ (P ++ ".bz".toList) BUNZIP2
                    (emit_form_left s _ _ _ q4) a4 h4 (Or.inr rfl) h))
                | false =>
                  have h := hp.trans (probe_none os P _ (by omega) h1 h2 h3 h4)
                  exact Or.inl (not_found_form os P s _ _
                    (emit_form s _ _ (Event.stat (P ++ ".bz".toList)) q4)
                    (allStat_more _ (P ++ ".bz".toList) a4) h)
  · intro s1 h
    obtain ⟨evs, hl, _, hnull⟩ := readFile_outcome os P s FILE.NULL s1 hbar h
    obtain ⟨hp, hn, hr⟩ := hnull rfl
    exact ⟨hp, hn, evs, hl, hr⟩

/-- Witness for C15 as amended: the one-character name `x`, with only `x.gz`
present, in the initial state satisfies the hypotheses. -/
theorem readFile_spawn_follows_stat_witness :
    "x".toList.length ≤ 484 ∧ "x".toList.head? ≠ some '|' ∧
    ((svd_readFile (osOnly "x.gz".toList) "x".toList State.init =
        some (FILE.stdin, State.init) ∨
      (∃ pre, (∀ e ∈ pre, ∃ p, e = Event.stat p) ∧
        svd_readFile (osOnly "x.gz".toList) "x".toList State.init =
          some (FILE.NULL, ⟨State.init.Pipe, State.init.numPipes, State.init.log ++ pre⟩)) ∨
      (∃ pre, (∀ e ∈ pre, ∃ p, e = Event.stat p) ∧
        (osOnly "x.gz".toList).stat "x".toList = true ∧
        svd_readFile (osOnly "x.gz".toList) "x".toList State.init =
          some (fopen (osOnly "x.gz".toList) "x".toList "r".toList
            ⟨State.init.Pipe, State.init.numPipes, State.init.log ++ pre⟩)) ∨
      (∃ pre file dec, (∀ e ∈ pre, ∃ p, e = Event.stat p) ∧
        (osOnly "x.gz".toList).stat file = true ∧
        (dec = UNZIP ∨ dec = BUNZIP2) ∧
        svd_readFile (osOnly "x.gz".toList) "x".toList State.init =
          openPipe (osOnly "x.gz".toList)
            (dec ++ " < ".toList ++ file ++ " 2>/dev/null".toList) "r".toList
            ⟨State.init.Pipe, State.init.numPipes,
              State.init.log ++ pre ++ [Event.stat file]⟩)) ∧
    (∀ s1, svd_readFile (osOnly "x.gz".toList) "x".toList State.init = some (FILE.NULL, s1) →
      s1.Pipe = State.init.Pipe ∧ s1.numPipes = State.init.numPipes ∧
      ∃ evs, s1.log = State.init.log ++ evs ∧
        ∀ cmd mode r, Event.popen cmd mode r ∈ evs → r = FILE.NULL)) :=
  ⟨by decide, by decide,
    readFile_spawn_follows_stat (osOnly "x.gz".toList) "x".toList State.init (by decide)
      (by decide)⟩

/-- Counterexample to C15 as stated (for every path): with the 600-character
name `longPath` absent and `longPath.gz` present, formatting the candidate
name overruns the 512-byte buffer, so the call has no defined outcome: it is
none of returning `stdin`, returning `NULL` after `stat` calls, opening the
file directly, or spawning a decompressor right after a successful `stat`. -/
theorem readFile_spawn_follows_stat_long_path_fails :
    ¬ (∀ (os : OS) (P : CStr) (s : State), P.head? ≠ some '|' →
        (svd_readFile os P s = some (FILE.stdin, s) ∨
          (∃ pre, (∀ e ∈ pre, ∃ p, e = Event.stat p) ∧
            svd_readFile os P s = some (FILE.NULL, ⟨s.Pipe, s.numPipes, s.log ++ pre⟩)) ∨
          (∃ pre, (∀ e ∈ pre, ∃ p, e = Event.stat p) ∧ os.stat P = true ∧
            svd_readFile os P s =
              some (fopen os P "r".toList ⟨s.Pipe, s.numPipes, s.log ++ pre⟩)) ∨
          (∃ pre file dec, (∀ e ∈ pre, ∃ p, e = Event.stat p) ∧ os.stat file = true ∧
            (dec = UNZIP ∨ dec = BUNZIP2) ∧
            svd_readFile os P s =
              openPipe os (dec ++ " < ".toList ++ file ++ " 2>/dev/null".toList) "r".toList
                ⟨s.Pipe, s.numPipes, s.log ++ pre ++ [Event.stat file]⟩)) ∧
        (∀ s1, svd_readFile os P s = some (FILE.NULL, s1) →
          s1.Pipe = s.Pipe ∧ s1.numPipes = s.numPipes ∧
          ∃ evs, s1.log = s.log ++ evs ∧
            ∀ cmd mode r, Event.popen cmd mode r ∈ evs → r = FILE.NULL)) := by
  intro H
  obtain ⟨h1, h2, h3, h4, h5, h6⟩ := longPath_plain
  have hP : (osOnly (longPath ++ ".gz".toList)).stat longPath = false :=
    osOnly_absent longPath _ (by decide)
  have hov : svd_readFile (osOnly (longPath ++ ".gz".toList)) longPath State.init = none := by
    rw [readFile_to_probe _ _ _ h1 h2 h3 h4 h5 h6 hP]
    unfold svd_readFile_probe
    rw [sprintf_overrun _ (by rw [List.length_append, longPath_length]; omega)]
  have e := (H (osOnly (longPath ++ ".gz".toList)) longPath State.init h2).1
  rw [hov] at e
  rcases e with e | ⟨_, _, e⟩ | ⟨_, _, _, e⟩ | ⟨pre, file, dec, _, _, _, e⟩
  · exact absurd e (by simp)
  · exact absurd e (by simp)
  · exact absurd e (by simp)
  · have hs := openPipe_init_some (osOnly (longPath ++ ".gz".toList))
      (dec ++ " < ".toList ++ file ++ " 2>/dev/null".toList) "r".toList
      (State.init.log ++ pre ++ [Event.stat file])
    have hn : (none : Option (FILE × State)).isSome = true := by
      rw [e]
      exact hs
    exact absurd hn (by simp)

end SvdUtil
